import Mathlib

set_option maxRecDepth 1000000

/-!
Shallow embedding of the graphVCS version-control engine
(`src/messwith_real.py`) and proofs about its commit graph, content
fingerprinting and merge logic.

File contents are modelled as byte lists (`Bytes`), strings as their
code-point byte lists (the repository only handles ASCII ids and paths,
where Python code-point order coincides with byte order).  The Neo4j
graph is modelled as explicit node and edge lists, the S3 bucket as an
association list from keys to contents, the working directory as an
association list from relative paths to contents, and the persisted
local pointer (`commit_config.json`) as an `Option Bytes`.
-/

namespace GraphVCS

abbrev Bytes := List Nat

/-- Code points of a string literal, used to write byte strings. -/
def asciiOf (s : String) : Bytes := s.data.map Char.toNat

/-! ## SHA-1 (as used via `hashlib.sha1`) -/

/-- Truncation to a 32-bit word. -/
def w32 (n : Nat) : Nat := n % 4294967296

/-- Left rotation of a 32-bit word by `k` bits. -/
def rotl (k w : Nat) : Nat := (w32 (w <<< k)) ||| (w >>> (32 - k))

/-- SHA-1 message padding: append `0x80`, zeros up to 56 mod 64, and the
bit length as an 8-byte big-endian integer. -/
def sha1Pad (msg : Bytes) : Bytes :=
  let len := msg.length
  let ml := len * 8
  let k := (119 - (len % 64)) % 64
  msg ++ [128] ++ List.replicate k 0 ++
    [ml / 2 ^ 56 % 256, ml / 2 ^ 48 % 256, ml / 2 ^ 40 % 256, ml / 2 ^ 32 % 256,
     ml / 2 ^ 24 % 256, ml / 2 ^ 16 % 256, ml / 2 ^ 8 % 256, ml % 256]

/-- Split a byte list into 64-byte chunks (fuel-based recursion). -/
def chunks64 (fuel : Nat) (l : Bytes) : List Bytes :=
  match fuel, l with
  | 0, _ => []
  | _, [] => []
  | fuel + 1, l => l.take 64 :: chunks64 fuel (l.drop 64)

/-- Big-endian 32-bit words of a chunk. -/
def wordsOfChunk (fuel : Nat) (c : Bytes) : List Nat :=
  match fuel, c with
  | 0, _ => []
  | _, [] => []
  | fuel + 1, c =>
    (c.getD 0 0 * 16777216 + c.getD 1 0 * 65536 + c.getD 2 0 * 256 + c.getD 3 0)
      :: wordsOfChunk fuel (c.drop 4)

/-- Extend 16 words to 80 by the SHA-1 recurrence. -/
def sha1Extend (fuel : Nat) (ws : List Nat) : List Nat :=
  match fuel with
  | 0 => ws
  | fuel + 1 =>
    let n := ws.length
    let w := rotl 1 ((ws.getD (n - 3) 0) ^^^ (ws.getD (n - 8) 0) ^^^
      (ws.getD (n - 14) 0) ^^^ (ws.getD (n - 16) 0))
    sha1Extend fuel (ws ++ [w])

/-- Round function of SHA-1. -/
def sha1F (i b c d : Nat) : Nat :=
  if i < 20 then (b &&& c) ||| ((4294967295 ^^^ b) &&& d)
  else if i < 40 then b ^^^ c ^^^ d
  else if i < 60 then (b &&& c) ||| (b &&& d) ||| (c &&& d)
  else b ^^^ c ^^^ d

/-- Round constants of SHA-1. -/
def sha1K (i : Nat) : Nat :=
  if i < 20 then 1518500249
  else if i < 40 then 1859775393
  else if i < 60 then 2400959708
  else 3395469782

/-- One SHA-1 round on the running state. -/
def sha1Round (st : Nat × Nat × Nat × Nat × Nat) (iw : Nat × Nat) :
    Nat × Nat × Nat × Nat × Nat :=
  let (a, b, c, d, e) := st
  let (i, w) := iw
  let temp := w32 (rotl 5 a + sha1F i b c d + e + sha1K i + w)
  (temp, a, rotl 30 b, c, d)

/-- Compression of one 64-byte chunk. -/
def sha1Chunk (h : Nat × Nat × Nat × Nat × Nat) (chunk : Bytes) :
    Nat × Nat × Nat × Nat × Nat :=
  let ws := sha1Extend 64 (wordsOfChunk 16 chunk)
  let (h0, h1, h2, h3, h4) := h
  let (a, b, c, d, e) := ((List.range 80).zip ws).foldl sha1Round h
  (w32 (h0 + a), w32 (h1 + b), w32 (h2 + c), w32 (h3 + d), w32 (h4 + e))

/-- SHA-1 digest (20 bytes) of a byte list. -/
def sha1Bytes (msg : Bytes) : Bytes :=
  let cs := chunks64 (msg.length + 9) (sha1Pad msg)
  let (h0, h1, h2, h3, h4) :=
    cs.foldl sha1Chunk (1732584193, 4023233417, 2562383102, 271733878, 3285377520)
  [h0, h1, h2, h3, h4].foldr (fun h acc =>
    [h / 16777216, h / 65536 % 256, h / 256 % 256, h % 256] ++ acc) []

/-- Lower-case hex character of a nibble, as a code point. -/
def hexChar (n : Nat) : Nat := if n < 10 then 48 + n else 87 + n

/-- Hex digest (40 characters, as code points) of a byte list, mirroring
`hashlib.sha1(...).hexdigest()`. -/
def sha1HexBytes (msg : Bytes) : Bytes :=
  (sha1Bytes msg).foldr (fun b acc => hexChar (b / 16) :: hexChar (b % 16) :: acc) []

/-! ## Fingerprint engine (`fetch_version_hash`, lines 339-386) -/

/-- Left-to-right non-overlapping replacement of CRLF by LF, mirroring
`content.replace(b'\r\n', b'\n')`. -/
def normalizeCRLF : Bytes → Bytes
  | [] => []
  | 13 :: 10 :: rest => 10 :: normalizeCRLF rest
  | b :: rest => b :: normalizeCRLF rest

/-- Decimal digits (as code points) of a natural number, mirroring `str`. -/
def decimalBytesAux (fuel n : Nat) : Bytes :=
  match fuel with
  | 0 => []
  | fuel + 1 =>
    if n < 10 then [48 + n] else decimalBytesAux fuel (n / 10) ++ [48 + n % 10]

/-- Decimal representation of a natural number as code points. -/
def decimalBytes (n : Nat) : Bytes := decimalBytesAux (n + 1) n

/-- Git blob preimage `"blob " + decimal length + NUL + content` built from
already-normalized content (lines 369-370). -/
def gitBlob (content : Bytes) : Bytes :=
  asciiOf "blob " ++ decimalBytes content.length ++ [0] ++ content

/-- File digest: normalize line endings, then the hex SHA-1 of the git blob
preimage (lines 363-373). -/
def fileHash (content : Bytes) : Bytes := sha1HexBytes (gitBlob (normalizeCRLF content))

/-- Order on `(relativePath, digest)` entries by path, as used by the sort
key `lambda x: x[0]` on line 378. -/
def entryLe (a b : Bytes × Bytes) : Prop := a.1 ≤ b.1

instance : DecidableRel entryLe := fun a b => inferInstanceAs (Decidable (a.1 ≤ b.1))

instance : IsTotal (Bytes × Bytes) entryLe := ⟨fun a b => le_total a.1 b.1⟩

instance : IsTrans (Bytes × Bytes) entryLe := ⟨fun _ _ _ h1 h2 => le_trans h1 h2⟩

/-- Concatenation of `path + ":" + digest` over a list of entries (line 378). -/
def joinEntries (l : List (Bytes × Bytes)) : Bytes :=
  l.foldl (fun acc e => acc ++ e.1 ++ [58] ++ e.2) []

/-- Directory digest: sort entries by relative path, concatenate
`path:digest`, and take the hex SHA-1 (lines 376-379). -/
def directoryHash (fileHashes : List (Bytes × Bytes)) : Bytes :=
  sha1HexBytes (joinEntries (List.insertionSort entryLe fileHashes))

/-! ## Commit graph, blob store and local state -/

/-- A `Commit` node of the property graph.  `CREATE` in `create_commit`
sets all three properties; `MERGE (c:Commit {id: ...})` in `create_branch`
creates a node carrying only the id. -/
structure CommitNode where
  cid : Bytes
  message : Option Bytes
  timestamp : Option Bytes
deriving DecidableEq, Repr

/-- Whole-system state: graph nodes and edges, the S3 bucket, the
persisted local pointer, the active branch, and the working directory. -/
structure VCState where
  commitNodes : List CommitNode
  userNodes : List Bytes
  branchNodes : List Bytes
  headNodes : List Bytes
  pointsTo : List (Bytes × Bytes)
  parentEdges : List (Bytes × Bytes)
  madeByEdges : List (Bytes × Bytes)
  baseEdges : List (Bytes × Bytes)
  blobs : List (Bytes × Bytes)
  localPtr : Option Bytes
  currentBranch : Bytes
  workDir : List (Bytes × Bytes)
deriving DecidableEq, Repr

/-- Whether a `Commit` node with the given id exists. -/
def commitExists (s : VCState) (c : Bytes) : Bool := s.commitNodes.any (fun n => n.cid == c)

/-- Cypher `MERGE (c:Commit {id: $commit_id})`: reuse or create an
attribute-less commit node. -/
def mergeCommitNode (s : VCState) (c : Bytes) : VCState :=
  if commitExists s c then s
  else { s with commitNodes := s.commitNodes ++ [⟨c, none, none⟩] }

/-- Cypher `MERGE (u:User {id: $user_id})`: upsert semantics. -/
def upsertUser (s : VCState) (u : Bytes) : VCState :=
  if s.userNodes.contains u then s else { s with userNodes := s.userNodes ++ [u] }

/-- Write-or-overwrite into an association list, modelling both an S3 put
and writing a file into the working directory. -/
def assocWrite (m : List (Bytes × Bytes)) (k v : Bytes) : List (Bytes × Bytes) :=
  if m.any (fun e => e.1 == k) then m.map (fun e => if e.1 == k then (k, v) else e)
  else m ++ [(k, v)]

/-- Content stored under a key, as returned by `get_object`/`download_file`. -/
def blobGet (blobs : List (Bytes × Bytes)) (k : Bytes) : Bytes :=
  ((blobs.find? (fun e => e.1 == k)).map (fun e => e.2)).getD []

/-- Rows of `MATCH (n:HEAD {branch: $b})-[:POINTS_TO]->(c:Commit) RETURN c.id`. -/
def headRows (s : VCState) (branch : Bytes) : List Bytes :=
  if s.headNodes.contains branch then
    (s.pointsTo.filter (fun e => e.1 == branch && commitExists s e.2)).map (fun e => e.2)
  else []

/-- Driver `result.single()` on the HEAD row set: the unique row, if any. -/
def headLookup (s : VCState) (branch : Bytes) : Option Bytes := (headRows s branch).head?

/-- Branch name `"master"`, the default `commit_branch`. -/
def masterBytes : Bytes := asciiOf "master"

/-- Embedding of `VersionControl.update_head` (lines 135-146): the query
matches the HEAD node with an outgoing `POINTS_TO` edge, deletes every such
edge, then per surviving row matches the commit and creates a fresh edge.
If the HEAD node is missing or has no edge, nothing happens; if the target
commit is missing, the old edges are deleted but no new one is created. -/
def updateHead (s : VCState) (branch c : Bytes) : VCState :=
  if s.headNodes.contains branch then
    if (s.pointsTo.filter (fun e => e.1 == branch)).length = 0 then s
    else if commitExists s c then
      { s with pointsTo := s.pointsTo.filter (fun e => !(e.1 == branch)) ++
          List.replicate (s.pointsTo.filter (fun e => e.1 == branch)).length (branch, c) }
    else { s with pointsTo := s.pointsTo.filter (fun e => !(e.1 == branch)) }
  else s

/-- Embedding of `VersionControl.s3_store` (lines 65-72): upload each file
under the key `commit_id + "/" + rel_path`. -/
def s3Store (s : VCState) (c : Bytes) (files : List (Bytes × Bytes)) : VCState :=
  { s with blobs := files.foldl (fun bs f => assocWrite bs (c ++ [47] ++ f.1) f.2) s.blobs }

/-- Cypher `CREATE (c:Commit {id, message, timestamp})` of `create_commit`. -/
def addCommitNode (s : VCState) (c msg ts : Bytes) : VCState :=
  { s with commitNodes := s.commitNodes ++ [⟨c, some msg, some ts⟩] }

/-- Cypher `CREATE (c)-[:MADE_BY]->(u)` of `create_commit`. -/
def addMadeBy (s : VCState) (c uid : Bytes) : VCState :=
  { s with madeByEdges := s.madeByEdges ++ [(c, uid)] }

/-- Parent-edge query of `create_commit` (lines 96-102): run only when the
looked-up parent id is truthy, and the edge is created only when the parent
commit node matches. -/
def addParentIfExists (s : VCState) (c : Bytes) : Option Bytes → VCState
  | some p =>
    if commitExists s p then { s with parentEdges := s.parentEdges ++ [(c, p)] } else s
  | none => s

/-- Effect of `write_latest_commit` (lines 61-63). -/
def setLocalPtr (s : VCState) (c : Bytes) : VCState := { s with localPtr := some c }

/-- Embedding of `VersionControl.create_commit` (lines 74-108): look up the
parent (from the config file for master, from the branch HEAD otherwise),
create the commit node, upsert the user, link `MADE_BY`, link `PARENT` when
the parent exists, persist the pointer, update the HEAD, upload the files. -/
def createCommit (s : VCState) (c msg uid : Bytes) (files : List (Bytes × Bytes))
    (branch ts : Bytes) : VCState :=
  s3Store
    (updateHead
      (setLocalPtr
        (addParentIfExists (addMadeBy (upsertUser (addCommitNode s c msg ts) uid) c uid) c
          (if branch = masterBytes then s.localPtr else headLookup s branch))
        c)
      branch c)
    c files

/-- Cypher `CREATE (b:Branch {name})`. -/
def addBranchNode (s : VCState) (name : Bytes) : VCState :=
  { s with branchNodes := s.branchNodes ++ [name] }

/-- Cypher `CREATE (b)-[:BASE]->(c)`. -/
def addBaseEdge (s : VCState) (name c : Bytes) : VCState :=
  { s with baseEdges := s.baseEdges ++ [(name, c)] }

/-- Cypher `MERGE (h:HEAD {branch: $branch_name})`. -/
def mergeHeadNode (s : VCState) (name : Bytes) : VCState :=
  if s.headNodes.contains name then s else { s with headNodes := s.headNodes ++ [name] }

/-- Cypher `CREATE (h)-[:POINTS_TO]->(c)`: unconditional edge creation. -/
def addPointsTo (s : VCState) (name c : Bytes) : VCState :=
  { s with pointsTo := s.pointsTo ++ [(name, c)] }

/-- Embedding of `VersionControl.create_branch` (lines 110-125): first query
creates the Branch node, merges the commit node and creates the `BASE` edge;
second query merges the HEAD node, merges the commit node and
unconditionally creates a `POINTS_TO` edge. -/
def createBranch (s : VCState) (name c : Bytes) : VCState :=
  addPointsTo
    (mergeCommitNode (mergeHeadNode (addBaseEdge (mergeCommitNode (addBranchNode s name) c) name c) name) c)
    name c

/-- Embedding of `VersionControl.switch_branch` (lines 181-194). -/
def switchBranch (s : VCState) (name : Bytes) : VCState :=
  match headLookup s name with
  | some c => { s with currentBranch := name, localPtr := some c }
  | none => s

/-- Embedding of `VersionControl.terminate_branch` (lines 388-407): returns
`false` without deleting when the Branch node is absent; otherwise the
detach-delete query needs both the Branch and the HEAD node to match. -/
def terminateBranch (s : VCState) (name : Bytes) : VCState × Bool :=
  if s.branchNodes.contains name then
    if s.headNodes.contains name then
      ({ s with
          branchNodes := s.branchNodes.filter (fun b => !(b == name)),
          headNodes := s.headNodes.filter (fun b => !(b == name)),
          baseEdges := s.baseEdges.filter (fun e => !(e.1 == name)),
          pointsTo := s.pointsTo.filter (fun e => !(e.1 == name)) }, true)
    else (s, true)
  else (s, false)

/-- Dotfile entries (`item.startswith('.')`) are preserved by a revert. -/
def isDotEntry (e : Bytes × Bytes) : Bool := e.1.head? == some 46

/-- Pure effect of `VersionControl.revert_to_commit` (lines 148-179) on the
working directory: clear non-dot entries, then download every non-folder
blob under `commit_id + "/"` to its relative path. -/
def revertDirPure (blobs wd : List (Bytes × Bytes)) (c : Bytes) : List (Bytes × Bytes) :=
  let pfx := c ++ [47]
  (blobs.filter (fun e => pfx.isPrefixOf e.1)).foldl
    (fun acc e =>
      if e.1.getLast? == some 47 then acc
      else assocWrite acc (e.1.drop pfx.length) (blobGet blobs e.1))
    (wd.filter isDotEntry)

/-- Embedding of `VersionControl.revert_to_commit` as a state update. -/
def revertToCommit (s : VCState) (c : Bytes) : VCState :=
  { s with workDir := revertDirPure s.blobs s.workDir c }

/-- Sort key of the listing sort on lines 349-352: the relative path for a
file key, the empty string for a pseudo-folder key. -/
def listedKey (pfxLen : Nat) (e : Bytes × Bytes) : Bytes :=
  if e.1.getLast? == some 47 then [] else e.1.drop pfxLen

/-- Order on listed objects induced by `listedKey`. -/
def keyLe (pfxLen : Nat) (a b : Bytes × Bytes) : Prop :=
  listedKey pfxLen a ≤ listedKey pfxLen b

instance (n : Nat) : DecidableRel (keyLe n) :=
  fun a b => inferInstanceAs (Decidable (listedKey n a ≤ listedKey n b))

instance (n : Nat) : IsTotal (Bytes × Bytes) (keyLe n) :=
  ⟨fun a b => le_total (listedKey n a) (listedKey n b)⟩

instance (n : Nat) : IsTrans (Bytes × Bytes) (keyLe n) :=
  ⟨fun _ _ _ h1 h2 => le_trans h1 h2⟩

/-- Embedding of `VersionControl.fetch_version_hash` (lines 339-386): list
the bucket under `commit_id + "/"`, sort by relative path, hash each
non-folder object with `fileHash`, and combine into the directory digest. -/
def fetchVersionHash (s : VCState) (c : Bytes) : Bytes × List (Bytes × Bytes) :=
  let pfx := c ++ [47]
  let listing := s.blobs.filter (fun e => pfx.isPrefixOf e.1)
  let sortedFiles := List.insertionSort (keyLe pfx.length) listing
  let fileHashes := sortedFiles.foldl
    (fun acc e =>
      if e.1.getLast? == some 47 then acc
      else acc ++ [(e.1.drop pfx.length, fileHash (blobGet s.blobs e.1))])
    []
  (directoryHash fileHashes, fileHashes)

/-- Directory digest of a commit's snapshot, the value compared by
`merge_branches`. -/
def dirDigest (s : VCState) (c : Bytes) : Bytes := (fetchVersionHash s c).1

/-! ## Merge commit creation (`merge_commit`, lines 320-337) -/

/-- Whether the last byte is an ASCII decimal digit; `int(last_commit_id[-1])`
raises otherwise. -/
def lastIsDigit (l : Bytes) : Bool :=
  match l.getLast? with
  | some b => decide (48 ≤ b) && decide (b ≤ 57)
  | none => false

/-- Derived merge commit id: drop the trailing digit and append the decimal
representation of that digit plus one (lines 324-326). -/
def mergeIdOf (l : Bytes) : Bytes := l.dropLast ++ decimalBytes (l.getLastD 0 - 48 + 1)

/-- Graph effect of the `merge_commit` query: `MERGE` the commit node on all
three attributes, then `MATCH` both parents and the user; the two `PARENT`
edges and the `MADE_BY` edge are created only when all three matches
succeed (the user is matched, not upserted). -/
def mergeNodeStep (s : VCState) (node : CommitNode) : VCState :=
  if s.commitNodes.any (fun n => n == node) then s
  else { s with commitNodes := s.commitNodes ++ [node] }

def mergeEdgeStep (s : VCState) (mid c1 c2 uid : Bytes) : VCState :=
  if commitExists s c1 && commitExists s c2 && s.userNodes.contains uid then
    { s with
        parentEdges := s.parentEdges ++ [(mid, c1), (mid, c2)],
        madeByEdges := s.madeByEdges ++ [(mid, uid)] }
  else s

def mergeGraphInsert (s : VCState) (mid msg ts c1 c2 uid : Bytes) : VCState :=
  mergeEdgeStep (mergeNodeStep s ⟨mid, some msg, some ts⟩) mid c1 c2 uid

/-- Embedding of `VersionControl.merge_commit` (lines 320-337).  The
`error` cases are the uncaught Python exceptions: subscripting `None`,
indexing an empty string, and `int` on a non-digit. -/
def mergeCommitOp (s : VCState) (c1 c2 uid msg ts : Bytes) :
    Except Unit (VCState × Bytes) :=
  match s.localPtr with
  | none => .error ()
  | some l =>
    if l.isEmpty then .error ()
    else if !(lastIsDigit l) then .error ()
    else
      let mid := mergeIdOf l
      let s1 := mergeGraphInsert s mid msg ts c1 c2 uid
      .ok ({ s1 with localPtr := some mid }, mid)

/-! ## Ancestor enumeration and LCA (`merge_branches`, lines 249-281) -/

/-- Records of `MATCH path = (n:Commit)-[:PARENT*]->(a:Commit) RETURN a.id,
length(path)`: one record per parent chain, enumerated depth-first in edge
list order.  The fuel bounds the chain length; parent histories are acyclic,
so any fuel at least the number of parent edges enumerates every chain. -/
def parentRecordsFrom (edges : List (Bytes × Bytes)) (fuel : Nat) (n : Bytes)
    (d : Nat) : List (Bytes × Nat) :=
  match fuel with
  | 0 => []
  | fuel + 1 =>
    (edges.filter (fun e => e.1 == n)).flatMap
      (fun e => (e.2, d + 1) :: parentRecordsFrom edges fuel e.2 (d + 1))

/-- All `(ancestor, distance)` records reachable from a commit. -/
def ancestorRecords (s : VCState) (c : Bytes) : List (Bytes × Nat) :=
  parentRecordsFrom s.parentEdges s.parentEdges.length c 0

/-- Python dict assignment `m[k] = v` on an association list. -/
def dictInsert (m : List (Bytes × Nat)) (k : Bytes) (v : Nat) : List (Bytes × Nat) :=
  if m.any (fun e => e.1 == k) then m.map (fun e => if e.1 == k then (k, v) else e)
  else m ++ [(k, v)]

/-- The loop `for record in result: ancestors[record.id] = record.distance`:
later records overwrite earlier ones. -/
def dictOfRecords (recs : List (Bytes × Nat)) : List (Bytes × Nat) :=
  recs.foldl (fun m r => dictInsert m r.1 r.2) []

/-- The `ancestors_for_*` dictionary built by `merge_branches`. -/
def ancestorsDict (s : VCState) (c : Bytes) : List (Bytes × Nat) :=
  dictOfRecords (ancestorRecords s c)

/-- Dictionary lookup. -/
def dictLookup (m : List (Bytes × Nat)) (k : Bytes) : Option Nat :=
  ((m.find? (fun e => e.1 == k)).map (fun e => e.2))

/-- The common-ancestor key set `set(d1) & set(d2)`, in first-dict order. -/
def commonAncestors (d1 d2 : List (Bytes × Nat)) : List Bytes :=
  (d1.map (fun e => e.1)).filter (fun c => d2.any (fun e => e.1 == c))

/-- Python `min(xs, key=f)`: the first element attaining the minimal key. -/
def argminBy (f : Bytes → Nat) : List Bytes → Option Bytes
  | [] => none
  | x :: xs => some (xs.foldl (fun best c => if f c < f best then c else best) x)

/-- The LCA chosen on line 280: the common ancestor minimizing the summed
recorded distances. -/
def lcaOf (d1 d2 : List (Bytes × Nat)) : Option Bytes :=
  argminBy (fun c => (dictLookup d1 c).getD 0 + (dictLookup d2 c).getD 0)
    (commonAncestors d1 d2)

/-! ## The merge engine (`merge_branches`, lines 223-315) -/

/-- Failure outcomes of `merge_branches`: the two `ValueError`s for a
missing HEAD, the no-common-ancestor `Exception`, the conflicting-versions
`ValueError`, and the uncaught exception escaping `merge_commit`. -/
inductive MergeErr where
  | noSourceHead
  | noTargetHead
  | noCommonAncestor
  | conflictingVersions
  | commitIdCrash
deriving DecidableEq, Repr

/-- Embedding of `VersionControl.merge_branches`.  The pair holds the raised
error (if any) and the state at that point; `none` means the merge ran to
completion including the final `update_head`. -/
def mergeBranches (s : VCState) (src tgt uid msg ts : Bytes) :
    Option MergeErr × VCState :=
  match headLookup s src with
  | none => (some .noSourceHead, s)
  | some sh =>
    match headLookup s tgt with
    | none => (some .noTargetHead, s)
    | some th =>
      let d1 := ancestorsDict s sh
      let d2 := ancestorsDict s th
      match lcaOf d1 d2 with
      | none => (some .noCommonAncestor, s)
      | some lca =>
        let da := dirDigest s lca
        let ds := dirDigest s sh
        let dt := dirDigest s th
        if da = dt ∧ da ≠ ds then
          let s1 := revertToCommit s sh
          match mergeCommitOp s1 sh th uid msg ts with
          | .error _ => (some .commitIdCrash, s1)
          | .ok (s2, mid) =>
            let s3 := (terminateBranch s2 src).1
            (none, updateHead s3 tgt mid)
        else if da ≠ dt ∧ da = ds then
          let s1 := revertToCommit s th
          match mergeCommitOp s1 sh th uid msg ts with
          | .error _ => (some .commitIdCrash, s1)
          | .ok (s2, mid) => (none, updateHead s2 tgt mid)
        else if da = dt ∧ dt = ds then
          match mergeCommitOp s sh th uid msg ts with
          | .error _ => (some .commitIdCrash, s)
          | .ok (s2, mid) => (none, updateHead s2 tgt mid)
        else (some .conflictingVersions, s)

/-! ## Order-insensitivity of the directory digest -/

/-- Strict-or-equal key order used to show sorted entry lists are unique
when the paths are distinct. -/
def entryLt' (a b : Bytes × Bytes) : Prop := a.1 < b.1 ∨ a = b

instance : IsAntisymm (Bytes × Bytes) entryLt' :=
  ⟨fun a b h1 h2 => by
    rcases h1 with h1 | h1
    · rcases h2 with h2 | h2
      · exact absurd h1 (lt_asymm h2)
      · exact h2.symm
    · exact h1⟩

lemma sorted_entryLt'_of_nodupKeys {l : List (Bytes × Bytes)}
    (hs : List.Sorted entryLe l) (hn : (l.map Prod.fst).Nodup) :
    List.Sorted entryLt' l := by
  have hpw : l.Pairwise (fun a b => a.1 ≠ b.1) := List.pairwise_map.mp hn
  exact (hs.and hpw).imp fun h => Or.inl (lt_of_le_of_ne h.1 h.2)

/-- Two permutation-equal entry lists with duplicate-free paths have the
same path-sorted form. -/
lemma insertionSort_key_eq {l1 l2 : List (Bytes × Bytes)} (hp : l1.Perm l2)
    (hn : (l1.map Prod.fst).Nodup) :
    List.insertionSort entryLe l1 = List.insertionSort entryLe l2 := by
  have h1 : (List.insertionSort entryLe l1).Perm l1 := List.perm_insertionSort _ _
  have h2 : (List.insertionSort entryLe l2).Perm l2 := List.perm_insertionSort _ _
  have hp' : (List.insertionSort entryLe l1).Perm (List.insertionSort entryLe l2) :=
    h1.trans (hp.trans h2.symm)
  have hn1 : ((List.insertionSort entryLe l1).map Prod.fst).Nodup :=
    ((h1.map Prod.fst).nodup_iff).mpr hn
  have hn2 : ((List.insertionSort entryLe l2).map Prod.fst).Nodup :=
    ((h2.map Prod.fst).nodup_iff).mpr ((hp.map Prod.fst).nodup_iff.mp hn)
  exact List.eq_of_perm_of_sorted hp'
    (sorted_entryLt'_of_nodupKeys (List.sorted_insertionSort _ _) hn1)
    (sorted_entryLt'_of_nodupKeys (List.sorted_insertionSort _ _) hn2)

/-- C6: `directoryHash` is a pure, order-insensitive function of the
snapshot's `(path, digest)` set: permuting the listing order of entries
with duplicate-free paths leaves the directory digest unchanged, and two
snapshots with identical `(path, content)` sets produce identical
directory digests. -/
theorem claim_C6_directoryHash_order_insensitive :
    (∀ e1 e2 : List (Bytes × Bytes), e1.Perm e2 → (e1.map Prod.fst).Nodup →
      directoryHash e1 = directoryHash e2) ∧
    (∀ f1 f2 : List (Bytes × Bytes), f1.Perm f2 → (f1.map Prod.fst).Nodup →
      directoryHash (f1.map (fun e => (e.1, fileHash e.2))) =
        directoryHash (f2.map (fun e => (e.1, fileHash e.2)))) := by
  constructor
  · intro e1 e2 hp hn
    unfold directoryHash
    rw [insertionSort_key_eq hp hn]
  · intro f1 f2 hp hn
    unfold directoryHash
    rw [insertionSort_key_eq (hp.map _) (by simpa [List.map_map, Function.comp] using hn)]

/-- Witness for C6 at a concrete two-entry snapshot. -/
theorem claim_C6_witness :
    directoryHash [(asciiOf "a", asciiOf "d1"), (asciiOf "b", asciiOf "d2")] =
      directoryHash [(asciiOf "b", asciiOf "d2"), (asciiOf "a", asciiOf "d1")] :=
  claim_C6_directoryHash_order_insensitive.1 _ _
    (List.Perm.swap _ _ _) (by decide)

/-! ## Small field-preservation lemmas about the operations -/

@[simp] lemma upsertUser_commitNodes (s : VCState) (u : Bytes) :
    (upsertUser s u).commitNodes = s.commitNodes := by
  unfold upsertUser; split <;> rfl

@[simp] lemma upsertUser_headNodes (s : VCState) (u : Bytes) :
    (upsertUser s u).headNodes = s.headNodes := by
  unfold upsertUser; split <;> rfl

@[simp] lemma upsertUser_branchNodes (s : VCState) (u : Bytes) :
    (upsertUser s u).branchNodes = s.branchNodes := by
  unfold upsertUser; split <;> rfl

@[simp] lemma upsertUser_pointsTo (s : VCState) (u : Bytes) :
    (upsertUser s u).pointsTo = s.pointsTo := by
  unfold upsertUser; split <;> rfl

@[simp] lemma upsertUser_parentEdges (s : VCState) (u : Bytes) :
    (upsertUser s u).parentEdges = s.parentEdges := by
  unfold upsertUser; split <;> rfl

@[simp] lemma upsertUser_madeByEdges (s : VCState) (u : Bytes) :
    (upsertUser s u).madeByEdges = s.madeByEdges := by
  unfold upsertUser; split <;> rfl

@[simp] lemma upsertUser_blobs (s : VCState) (u : Bytes) :
    (upsertUser s u).blobs = s.blobs := by
  unfold upsertUser; split <;> rfl

@[simp] lemma upsertUser_localPtr (s : VCState) (u : Bytes) :
    (upsertUser s u).localPtr = s.localPtr := by
  unfold upsertUser; split <;> rfl

@[simp] lemma updateHead_commitNodes (s : VCState) (b c : Bytes) :
    (updateHead s b c).commitNodes = s.commitNodes := by
  unfold updateHead; repeat' split
  all_goals rfl

@[simp] lemma updateHead_headNodes (s : VCState) (b c : Bytes) :
    (updateHead s b c).headNodes = s.headNodes := by
  unfold updateHead; repeat' split
  all_goals rfl

@[simp] lemma updateHead_branchNodes (s : VCState) (b c : Bytes) :
    (updateHead s b c).branchNodes = s.branchNodes := by
  unfold updateHead; repeat' split
  all_goals rfl

@[simp] lemma updateHead_parentEdges (s : VCState) (b c : Bytes) :
    (updateHead s b c).parentEdges = s.parentEdges := by
  unfold updateHead; repeat' split
  all_goals rfl

@[simp] lemma updateHead_madeByEdges (s : VCState) (b c : Bytes) :
    (updateHead s b c).madeByEdges = s.madeByEdges := by
  unfold updateHead; repeat' split
  all_goals rfl

@[simp] lemma updateHead_blobs (s : VCState) (b c : Bytes) :
    (updateHead s b c).blobs = s.blobs := by
  unfold updateHead; repeat' split
  all_goals rfl

@[simp] lemma updateHead_localPtr (s : VCState) (b c : Bytes) :
    (updateHead s b c).localPtr = s.localPtr := by
  unfold updateHead; repeat' split
  all_goals rfl

@[simp] lemma updateHead_workDir (s : VCState) (b c : Bytes) :
    (updateHead s b c).workDir = s.workDir := by
  unfold updateHead; repeat' split
  all_goals rfl

@[simp] lemma updateHead_userNodes (s : VCState) (b c : Bytes) :
    (updateHead s b c).userNodes = s.userNodes := by
  unfold updateHead; repeat' split
  all_goals rfl

@[simp] lemma addCommitNode_commitNodes (s : VCState) (c msg ts : Bytes) :
    (addCommitNode s c msg ts).commitNodes = s.commitNodes ++ [⟨c, some msg, some ts⟩] := rfl

@[simp] lemma addCommitNode_headNodes (s : VCState) (c msg ts : Bytes) :
    (addCommitNode s c msg ts).headNodes = s.headNodes := rfl

@[simp] lemma addCommitNode_pointsTo (s : VCState) (c msg ts : Bytes) :
    (addCommitNode s c msg ts).pointsTo = s.pointsTo := rfl

@[simp] lemma addCommitNode_parentEdges (s : VCState) (c msg ts : Bytes) :
    (addCommitNode s c msg ts).parentEdges = s.parentEdges := rfl

@[simp] lemma addCommitNode_localPtr (s : VCState) (c msg ts : Bytes) :
    (addCommitNode s c msg ts).localPtr = s.localPtr := rfl

@[simp] lemma addCommitNode_blobs (s : VCState) (c msg ts : Bytes) :
    (addCommitNode s c msg ts).blobs = s.blobs := rfl

@[simp] lemma addMadeBy_commitNodes (s : VCState) (c uid : Bytes) :
    (addMadeBy s c uid).commitNodes = s.commitNodes := rfl

@[simp] lemma addMadeBy_headNodes (s : VCState) (c uid : Bytes) :
    (addMadeBy s c uid).headNodes = s.headNodes := rfl

@[simp] lemma addMadeBy_pointsTo (s : VCState) (c uid : Bytes) :
    (addMadeBy s c uid).pointsTo = s.pointsTo := rfl

@[simp] lemma addMadeBy_parentEdges (s : VCState) (c uid : Bytes) :
    (addMadeBy s c uid).parentEdges = s.parentEdges := rfl

@[simp] lemma addMadeBy_localPtr (s : VCState) (c uid : Bytes) :
    (addMadeBy s c uid).localPtr = s.localPtr := rfl

@[simp] lemma addMadeBy_blobs (s : VCState) (c uid : Bytes) :
    (addMadeBy s c uid).blobs = s.blobs := rfl

@[simp] lemma addParentIfExists_none (s : VCState) (c : Bytes) :
    addParentIfExists s c none = s := rfl

@[simp] lemma addParentIfExists_commitNodes (s : VCState) (c : Bytes) (p? : Option Bytes) :
    (addParentIfExists s c p?).commitNodes = s.commitNodes := by
  cases p? with
  | none => rfl
  | some p => simp only [addParentIfExists]; split <;> rfl

@[simp] lemma addParentIfExists_headNodes (s : VCState) (c : Bytes) (p? : Option Bytes) :
    (addParentIfExists s c p?).headNodes = s.headNodes := by
  cases p? with
  | none => rfl
  | some p => simp only [addParentIfExists]; split <;> rfl

@[simp] lemma addParentIfExists_pointsTo (s : VCState) (c : Bytes) (p? : Option Bytes) :
    (addParentIfExists s c p?).pointsTo = s.pointsTo := by
  cases p? with
  | none => rfl
  | some p => simp only [addParentIfExists]; split <;> rfl

@[simp] lemma addParentIfExists_blobs (s : VCState) (c : Bytes) (p? : Option Bytes) :
    (addParentIfExists s c p?).blobs = s.blobs := by
  cases p? with
  | none => rfl
  | some p => simp only [addParentIfExists]; split <;> rfl

@[simp] lemma addParentIfExists_localPtr (s : VCState) (c : Bytes) (p? : Option Bytes) :
    (addParentIfExists s c p?).localPtr = s.localPtr := by
  cases p? with
  | none => rfl
  | some p => simp only [addParentIfExists]; split <;> rfl

@[simp] lemma addParentIfExists_madeByEdges (s : VCState) (c : Bytes) (p? : Option Bytes) :
    (addParentIfExists s c p?).madeByEdges = s.madeByEdges := by
  cases p? with
  | none => rfl
  | some p => simp only [addParentIfExists]; split <;> rfl

@[simp] lemma setLocalPtr_commitNodes (s : VCState) (c : Bytes) :
    (setLocalPtr s c).commitNodes = s.commitNodes := rfl

@[simp] lemma setLocalPtr_headNodes (s : VCState) (c : Bytes) :
    (setLocalPtr s c).headNodes = s.headNodes := rfl

@[simp] lemma setLocalPtr_pointsTo (s : VCState) (c : Bytes) :
    (setLocalPtr s c).pointsTo = s.pointsTo := rfl

@[simp] lemma setLocalPtr_parentEdges (s : VCState) (c : Bytes) :
    (setLocalPtr s c).parentEdges = s.parentEdges := rfl

@[simp] lemma setLocalPtr_localPtr (s : VCState) (c : Bytes) :
    (setLocalPtr s c).localPtr = some c := rfl

@[simp] lemma setLocalPtr_blobs (s : VCState) (c : Bytes) :
    (setLocalPtr s c).blobs = s.blobs := rfl

@[simp] lemma s3Store_commitNodes (s : VCState) (c : Bytes) (files : List (Bytes × Bytes)) :
    (s3Store s c files).commitNodes = s.commitNodes := rfl

@[simp] lemma s3Store_headNodes (s : VCState) (c : Bytes) (files : List (Bytes × Bytes)) :
    (s3Store s c files).headNodes = s.headNodes := rfl

@[simp] lemma s3Store_pointsTo (s : VCState) (c : Bytes) (files : List (Bytes × Bytes)) :
    (s3Store s c files).pointsTo = s.pointsTo := rfl

@[simp] lemma s3Store_parentEdges (s : VCState) (c : Bytes) (files : List (Bytes × Bytes)) :
    (s3Store s c files).parentEdges = s.parentEdges := rfl

@[simp] lemma s3Store_localPtr (s : VCState) (c : Bytes) (files : List (Bytes × Bytes)) :
    (s3Store s c files).localPtr = s.localPtr := rfl

lemma updateHead_of_not_head {s : VCState} {b : Bytes} (c : Bytes)
    (h : s.headNodes.contains b = false) : updateHead s b c = s := by
  unfold updateHead; rw [h]; simp

lemma headLookup_none_of_not_head {s : VCState} {b : Bytes}
    (h : s.headNodes.contains b = false) : headLookup s b = none := by
  unfold headLookup headRows; rw [h]; simp

/-! ## Claims C8, C9, C10 -/

lemma commitExists_mergeEdgeStep (s : VCState) (mid c1 c2 uid x : Bytes) :
    commitExists (mergeEdgeStep s mid c1 c2 uid) x = commitExists s x := by
  unfold mergeEdgeStep; split <;> rfl

lemma commitExists_mergeNodeStep_self (s : VCState) (node : CommitNode) :
    commitExists (mergeNodeStep s node) node.cid = true := by
  unfold mergeNodeStep; split
  · rename_i h
    simp only [List.any_eq_true, beq_iff_eq] at h
    obtain ⟨n, hn, rfl⟩ := h
    simp only [commitExists, List.any_eq_true, beq_iff_eq]
    exact ⟨_, hn, rfl⟩
  · simp [commitExists, List.any_eq_true]

lemma commitExists_mergeGraphInsert_self (s : VCState) (mid msg ts c1 c2 uid : Bytes) :
    commitExists (mergeGraphInsert s mid msg ts c1 c2 uid) mid = true := by
  unfold mergeGraphInsert
  rw [commitExists_mergeEdgeStep]
  exact commitExists_mergeNodeStep_self s ⟨mid, some msg, some ts⟩

lemma mergeCommitOp_ok {s : VCState} {l : Bytes} (c1 c2 uid msg ts : Bytes)
    (hp : s.localPtr = some l) (hne : l ≠ []) (hd : lastIsDigit l = true) :
    mergeCommitOp s c1 c2 uid msg ts =
      .ok ({ mergeGraphInsert s (mergeIdOf l) msg ts c1 c2 uid with
              localPtr := some (mergeIdOf l) }, mergeIdOf l) := by
  have hie : l.isEmpty = false := by cases l with
    | nil => exact absurd rfl hne
    | cons a t => rfl
  simp only [mergeCommitOp, hp, hie, hd]
  rfl

/-- C8: when the persisted local pointer holds a non-empty id ending in a
decimal digit, `merge_commit` succeeds, the new id is the old id with its
trailing digit replaced by that digit plus one, the commit node is recorded
in the graph, and the new id is persisted as the local pointer. -/
theorem claim_C8_merge_commit_id (s : VCState) (c1 c2 uid msg ts l : Bytes)
    (hp : s.localPtr = some l) (hne : l ≠ []) (hd : lastIsDigit l = true) :
    ∃ s', mergeCommitOp s c1 c2 uid msg ts = .ok (s', mergeIdOf l) ∧
      mergeIdOf l = l.dropLast ++ decimalBytes (l.getLastD 0 - 48 + 1) ∧
      commitExists s' (mergeIdOf l) = true ∧
      s'.localPtr = some (mergeIdOf l) := by
  refine ⟨_, mergeCommitOp_ok c1 c2 uid msg ts hp hne hd, rfl, ?_, rfl⟩
  show commitExists ({ mergeGraphInsert s (mergeIdOf l) msg ts c1 c2 uid with
    localPtr := some (mergeIdOf l) }) (mergeIdOf l) = true
  simpa [commitExists] using commitExists_mergeGraphInsert_self s (mergeIdOf l) msg ts c1 c2 uid

/-- Witness for C8: the pointer `"c3"` yields merge commit id `"c4"`. -/
theorem claim_C8_witness :
    ∃ s', mergeCommitOp
        { commitNodes := [], userNodes := [], branchNodes := [], headNodes := [],
          pointsTo := [], parentEdges := [], madeByEdges := [], baseEdges := [],
          blobs := [], localPtr := some (asciiOf "c3"), currentBranch := [], workDir := [] }
        (asciiOf "a") (asciiOf "b") (asciiOf "u") (asciiOf "m") (asciiOf "t") =
        .ok (s', mergeIdOf (asciiOf "c3")) ∧
      mergeIdOf (asciiOf "c3") =
        (asciiOf "c3").dropLast ++ decimalBytes ((asciiOf "c3").getLastD 0 - 48 + 1) ∧
      commitExists s' (mergeIdOf (asciiOf "c3")) = true ∧
      s'.localPtr = some (mergeIdOf (asciiOf "c3")) :=
  claim_C8_merge_commit_id _ _ _ _ _ _ _ rfl (by decide) (by decide)

/-- C9: `switch_branch` either resolves the branch HEAD and then updates
exactly the active branch and the persisted pointer, or resolves nothing
and leaves the state exactly unchanged. -/
theorem claim_C9_switch_branch (s : VCState) (name c : Bytes) :
    (headLookup s name = some c →
      switchBranch s name = { s with currentBranch := name, localPtr := some c }) ∧
    (headLookup s name = none → switchBranch s name = s) := by
  constructor <;> intro h <;> simp [switchBranch, h]

/-- Witness for C9: a state whose branch `"b"` resolves to `"c1"`, and an
absent branch name. -/
theorem claim_C9_witness :
    switchBranch
        { commitNodes := [⟨asciiOf "c1", none, none⟩], userNodes := [], branchNodes := [asciiOf "b"],
          headNodes := [asciiOf "b"], pointsTo := [(asciiOf "b", asciiOf "c1")], parentEdges := [],
          madeByEdges := [], baseEdges := [], blobs := [], localPtr := none,
          currentBranch := asciiOf "master", workDir := [] }
        (asciiOf "b") =
      { commitNodes := [⟨asciiOf "c1", none, none⟩], userNodes := [], branchNodes := [asciiOf "b"],
        headNodes := [asciiOf "b"], pointsTo := [(asciiOf "b", asciiOf "c1")], parentEdges := [],
        madeByEdges := [], baseEdges := [], blobs := [], localPtr := some (asciiOf "c1"),
        currentBranch := asciiOf "b", workDir := [] } ∧
    switchBranch
        { commitNodes := [], userNodes := [], branchNodes := [], headNodes := [],
          pointsTo := [], parentEdges := [], madeByEdges := [], baseEdges := [],
          blobs := [], localPtr := none, currentBranch := asciiOf "master", workDir := [] }
        (asciiOf "nope") =
      { commitNodes := [], userNodes := [], branchNodes := [], headNodes := [],
        pointsTo := [], parentEdges := [], madeByEdges := [], baseEdges := [],
        blobs := [], localPtr := none, currentBranch := asciiOf "master", workDir := [] } :=
  ⟨(claim_C9_switch_branch _ _ (asciiOf "c1")).1 (by decide),
   (claim_C9_switch_branch _ _ []).2 (by decide)⟩

/-! ## C10: commit on a branch without a HEAD node -/

lemma mem_keys_assocWrite_self (m : List (Bytes × Bytes)) (k v : Bytes) :
    k ∈ (assocWrite m k v).map Prod.fst := by
  unfold assocWrite; split
  · rename_i h
    simp only [List.any_eq_true] at h
    obtain ⟨e, he, hek⟩ := h
    simp only [List.map_map, List.mem_map, Function.comp]
    exact ⟨e, he, by simp [hek]⟩
  · simp

lemma mem_keys_assocWrite_mono {m : List (Bytes × Bytes)} {k' : Bytes} (k v : Bytes)
    (h : k' ∈ m.map Prod.fst) : k' ∈ (assocWrite m k v).map Prod.fst := by
  unfold assocWrite; split
  · simp only [List.map_map, List.mem_map, Function.comp] at h ⊢
    obtain ⟨e, he, rfl⟩ := h
    refine ⟨e, he, ?_⟩
    by_cases hc : (e.1 == k) = true
    · have hek : e.1 = k := by simpa using hc
      simp [hc, hek]
    · simp [hc]
  · simp only [List.map_append, List.mem_append]
    exact Or.inl h

lemma mem_keys_foldl_assocWrite (g : Bytes × Bytes → Bytes)
    (files : List (Bytes × Bytes)) :
    ∀ (m : List (Bytes × Bytes)) (k' : Bytes), k' ∈ m.map Prod.fst →
      k' ∈ (files.foldl (fun bs f => assocWrite bs (g f) f.2) m).map Prod.fst := by
  induction files with
  | nil => intro m k' h; exact h
  | cons f fs ih => intro m k' h; exact ih _ _ (mem_keys_assocWrite_mono _ _ h)

lemma mem_keys_s3Store_blobs (g : Bytes × Bytes → Bytes) (files : List (Bytes × Bytes)) :
    ∀ (m : List (Bytes × Bytes)) (f : Bytes × Bytes), f ∈ files →
      g f ∈ (files.foldl (fun bs f => assocWrite bs (g f) f.2) m).map Prod.fst := by
  induction files with
  | nil => intro m f h; cases h
  | cons f0 fs ih =>
    intro m f h
    rcases h with _ | h
    · exact mem_keys_foldl_assocWrite g fs _ _ (mem_keys_assocWrite_self _ _ _)
    · exact ih _ _ (by assumption)

/-- C10: `create_commit` on a non-master branch whose HEAD node does not
exist does not fail: the new commit gets zero `PARENT` edges, no
`POINTS_TO` edge is created, the local pointer is still overwritten with
the new id, and the snapshot files are still uploaded. -/
theorem claim_C10_headless_commit (s : VCState) (c msg uid : Bytes)
    (files : List (Bytes × Bytes)) (branch ts : Bytes)
    (hbm : branch ≠ masterBytes)
    (hhd : s.headNodes.contains branch = false)
    (hfresh : s.parentEdges.filter (fun e => e.1 == c) = []) :
    (⟨c, some msg, some ts⟩ : CommitNode) ∈ (createCommit s c msg uid files branch ts).commitNodes ∧
    (createCommit s c msg uid files branch ts).parentEdges.filter (fun e => e.1 == c) = [] ∧
    (createCommit s c msg uid files branch ts).pointsTo = s.pointsTo ∧
    (createCommit s c msg uid files branch ts).localPtr = some c ∧
    ∀ f ∈ files, (c ++ [47] ++ f.1) ∈ (createCommit s c msg uid files branch ts).blobs.map Prod.fst := by
  unfold createCommit
  rw [if_neg hbm, headLookup_none_of_not_head hhd, addParentIfExists_none,
    updateHead_of_not_head c (by simpa using hhd)]
  refine ⟨?_, ?_, ?_, ?_, ?_⟩
  · simp
  · simpa using hfresh
  · simp
  · simp
  · intro f hf
    exact mem_keys_s3Store_blobs (fun f => c ++ [47] ++ f.1) files _ f hf

/-- Witness for C10: a commit on branch `"dev"` with no HEAD node. -/
theorem claim_C10_witness :
    (⟨asciiOf "c1", some (asciiOf "m"), some (asciiOf "t")⟩ : CommitNode) ∈
      (createCommit
        { commitNodes := [], userNodes := [], branchNodes := [], headNodes := [],
          pointsTo := [], parentEdges := [], madeByEdges := [], baseEdges := [],
          blobs := [], localPtr := none, currentBranch := asciiOf "master", workDir := [] }
        (asciiOf "c1") (asciiOf "m") (asciiOf "u") [(asciiOf "f", asciiOf "x")]
        (asciiOf "dev") (asciiOf "t")).commitNodes ∧
    (createCommit
        { commitNodes := [], userNodes := [], branchNodes := [], headNodes := [],
          pointsTo := [], parentEdges := [], madeByEdges := [], baseEdges := [],
          blobs := [], localPtr := none, currentBranch := asciiOf "master", workDir := [] }
        (asciiOf "c1") (asciiOf "m") (asciiOf "u") [(asciiOf "f", asciiOf "x")]
        (asciiOf "dev") (asciiOf "t")).parentEdges.filter (fun e => e.1 == asciiOf "c1") = [] ∧
    (createCommit
        { commitNodes := [], userNodes := [], branchNodes := [], headNodes := [],
          pointsTo := [], parentEdges := [], madeByEdges := [], baseEdges := [],
          blobs := [], localPtr := none, currentBranch := asciiOf "master", workDir := [] }
        (asciiOf "c1") (asciiOf "m") (asciiOf "u") [(asciiOf "f", asciiOf "x")]
        (asciiOf "dev") (asciiOf "t")).pointsTo = [] ∧
    (createCommit
        { commitNodes := [], userNodes := [], branchNodes := [], headNodes := [],
          pointsTo := [], parentEdges := [], madeByEdges := [], baseEdges := [],
          blobs := [], localPtr := none, currentBranch := asciiOf "master", workDir := [] }
        (asciiOf "c1") (asciiOf "m") (asciiOf "u") [(asciiOf "f", asciiOf "x")]
        (asciiOf "dev") (asciiOf "t")).localPtr = some (asciiOf "c1") ∧
    ∀ f ∈ [(asciiOf "f", asciiOf "x")], (asciiOf "c1" ++ [47] ++ f.1) ∈
      (createCommit
        { commitNodes := [], userNodes := [], branchNodes := [], headNodes := [],
          pointsTo := [], parentEdges := [], madeByEdges := [], baseEdges := [],
          blobs := [], localPtr := none, currentBranch := asciiOf "master", workDir := [] }
        (asciiOf "c1") (asciiOf "m") (asciiOf "u") [(asciiOf "f", asciiOf "x")]
        (asciiOf "dev") (asciiOf "t")).blobs.map Prod.fst :=
  claim_C10_headless_commit _ _ _ _ _ _ _ (by decide) (by decide) (by decide)

/-! ## C4: edges of a merge commit -/

@[simp] lemma mergeNodeStep_userNodes (s : VCState) (node : CommitNode) :
    (mergeNodeStep s node).userNodes = s.userNodes := by
  unfold mergeNodeStep; split <;> rfl

@[simp] lemma mergeNodeStep_parentEdges (s : VCState) (node : CommitNode) :
    (mergeNodeStep s node).parentEdges = s.parentEdges := by
  unfold mergeNodeStep; split <;> rfl

@[simp] lemma mergeNodeStep_madeByEdges (s : VCState) (node : CommitNode) :
    (mergeNodeStep s node).madeByEdges = s.madeByEdges := by
  unfold mergeNodeStep; split <;> rfl

@[simp] lemma mergeNodeStep_pointsTo (s : VCState) (node : CommitNode) :
    (mergeNodeStep s node).pointsTo = s.pointsTo := by
  unfold mergeNodeStep; split <;> rfl

@[simp] lemma mergeNodeStep_headNodes (s : VCState) (node : CommitNode) :
    (mergeNodeStep s node).headNodes = s.headNodes := by
  unfold mergeNodeStep; split <;> rfl

@[simp] lemma mergeNodeStep_branchNodes (s : VCState) (node : CommitNode) :
    (mergeNodeStep s node).branchNodes = s.branchNodes := by
  unfold mergeNodeStep; split <;> rfl

@[simp] lemma mergeNodeStep_blobs (s : VCState) (node : CommitNode) :
    (mergeNodeStep s node).blobs = s.blobs := by
  unfold mergeNodeStep; split <;> rfl

@[simp] lemma mergeNodeStep_localPtr (s : VCState) (node : CommitNode) :
    (mergeNodeStep s node).localPtr = s.localPtr := by
  unfold mergeNodeStep; split <;> rfl

@[simp] lemma mergeNodeStep_workDir (s : VCState) (node : CommitNode) :
    (mergeNodeStep s node).workDir = s.workDir := by
  unfold mergeNodeStep; split <;> rfl

lemma mem_mergeNodeStep_self (s : VCState) (node : CommitNode) :
    node ∈ (mergeNodeStep s node).commitNodes := by
  unfold mergeNodeStep; split
  · rename_i h
    simp only [List.any_eq_true, beq_iff_eq] at h
    obtain ⟨n, hn, rfl⟩ := h
    exact hn
  · simp

lemma commitExists_mergeNodeStep_mono {s : VCState} {x : Bytes} (node : CommitNode)
    (h : commitExists s x = true) : commitExists (mergeNodeStep s node) x = true := by
  unfold mergeNodeStep; split
  · exact h
  · simp only [commitExists, List.any_eq_true] at h ⊢
    obtain ⟨n, hn, hx⟩ := h
    exact ⟨n, List.mem_append_left _ hn, hx⟩

lemma mergeEdgeStep_pos {s : VCState} {c1 c2 uid : Bytes} (mid : Bytes)
    (h : (commitExists s c1 && commitExists s c2 && s.userNodes.contains uid) = true) :
    mergeEdgeStep s mid c1 c2 uid =
      { s with parentEdges := s.parentEdges ++ [(mid, c1), (mid, c2)],
               madeByEdges := s.madeByEdges ++ [(mid, uid)] } := by
  unfold mergeEdgeStep; rw [if_pos h]

lemma mergeEdgeStep_neg {s : VCState} {c1 c2 uid : Bytes} (mid : Bytes)
    (h : (commitExists s c1 && commitExists s c2 && s.userNodes.contains uid) = false) :
    mergeEdgeStep s mid c1 c2 uid = s := by
  unfold mergeEdgeStep; rw [h]; rfl

/-- State for the C4 counterexample: both parent commits exist but the user
node does not. -/
def stC4 : VCState :=
  { commitNodes := [⟨asciiOf "a", none, none⟩, ⟨asciiOf "b", none, none⟩],
    userNodes := [], branchNodes := [], headNodes := [], pointsTo := [],
    parentEdges := [], madeByEdges := [], baseEdges := [], blobs := [],
    localPtr := some (asciiOf "m1"), currentBranch := asciiOf "master", workDir := [] }

/-- C4 fails on the code: `merge_commit` only `MATCH`es the user, it never
upserts it.  With both parents present but the user absent, the created
merge commit ends with zero `PARENT` edges and zero `MADE_BY` edges, and no
user node is created. -/
theorem claim_C4_counterexample :
    (mergeCommitOp stC4 (asciiOf "a") (asciiOf "b") (asciiOf "u") (asciiOf "m")
        (asciiOf "t")).toOption.map
      (fun p => (p.1.parentEdges, p.1.madeByEdges, p.1.userNodes)) =
      some ([], [], []) := by decide

/-- C4 amended: `merge_commit` derives its id from the local pointer and
merges the commit node; when both parents and the user already exist it
creates exactly two `PARENT` edges (one per parent) and one `MADE_BY` edge,
but the user is matched rather than upserted — when the user node is
absent, no `PARENT` or `MADE_BY` edge is created at all. -/
theorem claim_C4_merge_commit_edges (s : VCState) (c1 c2 uid msg ts l : Bytes)
    (hp : s.localPtr = some l) (hne : l ≠ []) (hd : lastIsDigit l = true)
    (hfp : s.parentEdges.filter (fun e => e.1 == mergeIdOf l) = [])
    (hfm : s.madeByEdges.filter (fun e => e.1 == mergeIdOf l) = []) :
    ∃ s', mergeCommitOp s c1 c2 uid msg ts = .ok (s', mergeIdOf l) ∧
      (⟨mergeIdOf l, some msg, some ts⟩ : CommitNode) ∈ s'.commitNodes ∧
      (commitExists s c1 = true → commitExists s c2 = true →
        s.userNodes.contains uid = true →
        s'.parentEdges.filter (fun e => e.1 == mergeIdOf l) = [(mergeIdOf l, c1), (mergeIdOf l, c2)] ∧
        s'.madeByEdges.filter (fun e => e.1 == mergeIdOf l) = [(mergeIdOf l, uid)]) ∧
      (s.userNodes.contains uid = false →
        s'.parentEdges.filter (fun e => e.1 == mergeIdOf l) = [] ∧
        s'.madeByEdges.filter (fun e => e.1 == mergeIdOf l) = [] ∧
        s'.userNodes = s.userNodes) := by
  refine ⟨_, mergeCommitOp_ok c1 c2 uid msg ts hp hne hd, ?_, ?_, ?_⟩
  · show (⟨mergeIdOf l, some msg, some ts⟩ : CommitNode) ∈
      (mergeGraphInsert s (mergeIdOf l) msg ts c1 c2 uid).commitNodes
    unfold mergeGraphInsert
    have h := mem_mergeNodeStep_self s ⟨mergeIdOf l, some msg, some ts⟩
    unfold mergeEdgeStep
    split <;> simpa using h
  · intro h1 h2 h3
    unfold mergeGraphInsert
    rw [mergeEdgeStep_pos (mergeIdOf l)
      (by rw [mergeNodeStep_userNodes, commitExists_mergeNodeStep_mono _ h1,
            commitExists_mergeNodeStep_mono _ h2, h3]; rfl)]
    constructor
    · simp [List.filter_append, hfp]
    · simp [List.filter_append, hfm]
  · intro h3
    unfold mergeGraphInsert
    rw [mergeEdgeStep_neg (mergeIdOf l) (by rw [mergeNodeStep_userNodes, h3]; simp)]
    exact ⟨by simpa using hfp, by simpa using hfm, by simp⟩

/-- Witness for the C4 amended theorem at a concrete state where parents
and user all exist. -/
theorem claim_C4_witness :
    ∃ s', mergeCommitOp
        { commitNodes := [⟨asciiOf "a", none, none⟩, ⟨asciiOf "b", none, none⟩],
          userNodes := [asciiOf "u"], branchNodes := [], headNodes := [], pointsTo := [],
          parentEdges := [], madeByEdges := [], baseEdges := [], blobs := [],
          localPtr := some (asciiOf "m1"), currentBranch := asciiOf "master", workDir := [] }
        (asciiOf "a") (asciiOf "b") (asciiOf "u") (asciiOf "m") (asciiOf "t") =
        .ok (s', mergeIdOf (asciiOf "m1")) ∧
      (⟨mergeIdOf (asciiOf "m1"), some (asciiOf "m"), some (asciiOf "t")⟩ : CommitNode) ∈ s'.commitNodes ∧
      (commitExists
          { commitNodes := [⟨asciiOf "a", none, none⟩, ⟨asciiOf "b", none, none⟩],
            userNodes := [asciiOf "u"], branchNodes := [], headNodes := [], pointsTo := [],
            parentEdges := [], madeByEdges := [], baseEdges := [], blobs := [],
            localPtr := some (asciiOf "m1"), currentBranch := asciiOf "master", workDir := [] }
          (asciiOf "a") = true →
        commitExists
          { commitNodes := [⟨asciiOf "a", none, none⟩, ⟨asciiOf "b", none, none⟩],
            userNodes := [asciiOf "u"], branchNodes := [], headNodes := [], pointsTo := [],
            parentEdges := [], madeByEdges := [], baseEdges := [], blobs := [],
            localPtr := some (asciiOf "m1"), currentBranch := asciiOf "master", workDir := [] }
          (asciiOf "b") = true →
        [asciiOf "u"].contains (asciiOf "u") = true →
        s'.parentEdges.filter (fun e => e.1 == mergeIdOf (asciiOf "m1")) =
          [(mergeIdOf (asciiOf "m1"), asciiOf "a"), (mergeIdOf (asciiOf "m1"), asciiOf "b")] ∧
        s'.madeByEdges.filter (fun e => e.1 == mergeIdOf (asciiOf "m1")) =
          [(mergeIdOf (asciiOf "m1"), asciiOf "u")]) ∧
      ([asciiOf "u"].contains (asciiOf "u") = false →
        s'.parentEdges.filter (fun e => e.1 == mergeIdOf (asciiOf "m1")) = [] ∧
        s'.madeByEdges.filter (fun e => e.1 == mergeIdOf (asciiOf "m1")) = [] ∧
        s'.userNodes = [asciiOf "u"]) :=
  claim_C4_merge_commit_edges _ _ _ _ _ _ _ rfl (by decide) (by decide) (by decide) (by decide)

/-! ## C5: uniqueness of the POINTS_TO edge -/

@[simp] lemma addBranchNode_pointsTo (s : VCState) (name : Bytes) :
    (addBranchNode s name).pointsTo = s.pointsTo := rfl

@[simp] lemma addBranchNode_headNodes (s : VCState) (name : Bytes) :
    (addBranchNode s name).headNodes = s.headNodes := rfl

@[simp] lemma addBaseEdge_pointsTo (s : VCState) (name c : Bytes) :
    (addBaseEdge s name c).pointsTo = s.pointsTo := rfl

@[simp] lemma addBaseEdge_headNodes (s : VCState) (name c : Bytes) :
    (addBaseEdge s name c).headNodes = s.headNodes := rfl

@[simp] lemma mergeCommitNode_pointsTo (s : VCState) (c : Bytes) :
    (mergeCommitNode s c).pointsTo = s.pointsTo := by
  unfold mergeCommitNode; split <;> rfl

@[simp] lemma mergeCommitNode_headNodes (s : VCState) (c : Bytes) :
    (mergeCommitNode s c).headNodes = s.headNodes := by
  unfold mergeCommitNode; split <;> rfl

@[simp] lemma mergeHeadNode_pointsTo (s : VCState) (name : Bytes) :
    (mergeHeadNode s name).pointsTo = s.pointsTo := by
  unfold mergeHeadNode; split <;> rfl

@[simp] lemma addPointsTo_pointsTo (s : VCState) (name c : Bytes) :
    (addPointsTo s name c).pointsTo = s.pointsTo ++ [(name, c)] := rfl

/-- The empty repository state. -/
def emptyState : VCState :=
  { commitNodes := [], userNodes := [], branchNodes := [], headNodes := [],
    pointsTo := [], parentEdges := [], madeByEdges := [], baseEdges := [],
    blobs := [], localPtr := none, currentBranch := asciiOf "master", workDir := [] }

/-- C5 fails on the code: `create_branch` on a name whose HEAD node already
exists reuses the HEAD (second conjunct) but only `CREATE`s a new
`POINTS_TO` edge without deleting the old one, leaving the HEAD with two
outgoing `POINTS_TO` edges. -/
theorem claim_C5_counterexample :
    ((createBranch (createBranch emptyState (asciiOf "b") (asciiOf "c1"))
        (asciiOf "b") (asciiOf "c2")).pointsTo.filter
      (fun e => e.1 == asciiOf "b")).length = 2 ∧
    (createBranch emptyState (asciiOf "b") (asciiOf "c1")).headNodes.contains
      (asciiOf "b") = true := by decide

/-- Preservation of a unique HEAD edge by `update_head` when the target
commit exists. -/
lemma updateHead_keeps_single {s : VCState} {b c : Bytes}
    (hh : s.headNodes.contains b = true)
    (h1 : (s.pointsTo.filter (fun e => e.1 == b)).length = 1)
    (hc : commitExists s c = true) :
    ((updateHead s b c).pointsTo.filter (fun e => e.1 == b)).length = 1 := by
  unfold updateHead
  rw [hh, if_pos rfl, if_neg (by rw [h1]; exact one_ne_zero), if_pos hc]
  simp only [List.filter_append, List.length_append]
  rw [List.filter_filter]
  simp [h1, List.filter_replicate]

/-- C5 amended: after `create_branch` with a genuinely fresh branch name
(no pre-existing HEAD node and no stray `POINTS_TO` edges for it), after
`update_head` to an existing commit, and after `create_commit` on a branch
whose HEAD had exactly one `POINTS_TO` edge, the HEAD has exactly one
outgoing `POINTS_TO` edge; the original claim's "reused HEAD" case
instead accumulates a second edge (see the counterexample). -/
theorem claim_C5_head_unique :
    (∀ (s : VCState) (name c : Bytes), s.headNodes.contains name = false →
      s.pointsTo.filter (fun e => e.1 == name) = [] →
      ((createBranch s name c).pointsTo.filter (fun e => e.1 == name)).length = 1) ∧
    (∀ (s : VCState) (b c : Bytes), s.headNodes.contains b = true →
      (s.pointsTo.filter (fun e => e.1 == b)).length = 1 →
      commitExists s c = true →
      ((updateHead s b c).pointsTo.filter (fun e => e.1 == b)).length = 1) ∧
    (∀ (s : VCState) (c msg uid : Bytes) (files : List (Bytes × Bytes)) (branch ts : Bytes),
      s.headNodes.contains branch = true →
      (s.pointsTo.filter (fun e => e.1 == branch)).length = 1 →
      ((createCommit s c msg uid files branch ts).pointsTo.filter
        (fun e => e.1 == branch)).length = 1) := by
  refine ⟨?_, ?_, ?_⟩
  · intro s name c _ hstray
    simp [createBranch, List.filter_append, hstray]
  · intro s b c hh h1 hc
    exact updateHead_keeps_single hh h1 hc
  · intro s c msg uid files branch ts hh h1
    unfold createCommit
    rw [s3Store_pointsTo]
    set t := setLocalPtr
      (addParentIfExists (addMadeBy (upsertUser (addCommitNode s c msg ts) uid) c uid) c
        (if branch = masterBytes then s.localPtr else headLookup s branch)) c with ht
    have htp : t.pointsTo = s.pointsTo := by simp [ht]
    have hth : t.headNodes = s.headNodes := by simp [ht]
    have htc : commitExists t c = true := by
      have : t.commitNodes = s.commitNodes ++ [⟨c, some msg, some ts⟩] := by simp [ht]
      simp [commitExists, this]
    have := updateHead_keeps_single (s := t) (b := branch) (c := c)
      (by rw [hth]; exact hh) (by rw [htp]; exact h1) htc
    simpa [htp] using this

/-- Witness for the C5 amended theorem at concrete states. -/
theorem claim_C5_witness :
    ((createBranch emptyState (asciiOf "b") (asciiOf "c1")).pointsTo.filter
      (fun e => e.1 == asciiOf "b")).length = 1 ∧
    ((updateHead (createBranch emptyState (asciiOf "b") (asciiOf "c1"))
        (asciiOf "b") (asciiOf "c1")).pointsTo.filter
      (fun e => e.1 == asciiOf "b")).length = 1 :=
  ⟨claim_C5_head_unique.1 emptyState _ _ (by decide) (by decide),
   claim_C5_head_unique.2.1 _ _ _ (by decide) (by decide) (by decide)⟩

/-! ## C2: ancestor distances and the LCA -/

lemma find?_key_eq_none {m : List (Bytes × Nat)} {k : Bytes}
    (h : m.any (fun e => e.1 == k) = false) :
    m.find? (fun e => e.1 == k) = none := by
  induction m with
  | nil => rfl
  | cons e es ih =>
    simp only [List.any_cons, Bool.or_eq_false_iff] at h
    rw [@List.find?_cons_of_neg _ (fun e => e.1 == k) e _ (by simp [h.1])]
    exact ih h.2

lemma dictLookup_map_overwrite {m : List (Bytes × Nat)} {k : Bytes} {v : Nat}
    (h : m.any (fun e => e.1 == k) = true) :
    dictLookup (m.map (fun e => if e.1 == k then (k, v) else e)) k = some v := by
  induction m with
  | nil => simp at h
  | cons e es ih =>
    unfold dictLookup at ih ⊢
    simp only [List.map_cons]
    by_cases he : (e.1 == k) = true
    · rw [if_pos he, @List.find?_cons_of_pos _ (fun e => e.1 == k) (k, v) _ (by simp)]
      rfl
    · have ha : es.any (fun e => e.1 == k) = true := by
        simpa [List.any_cons, he] using h
      rw [if_neg he, @List.find?_cons_of_neg _ (fun e => e.1 == k) e _ he]
      exact ih ha

lemma dictLookup_append_fresh {m : List (Bytes × Nat)} {k : Bytes} (v : Nat)
    (h : m.any (fun e => e.1 == k) = false) :
    dictLookup (m ++ [(k, v)]) k = some v := by
  unfold dictLookup
  rw [List.find?_append, find?_key_eq_none h,
    @List.find?_cons_of_pos _ (fun e => e.1 == k) (k, v) _ (by simp)]
  rfl

lemma dictLookup_dictInsert_self (m : List (Bytes × Nat)) (k : Bytes) (v : Nat) :
    dictLookup (dictInsert m k v) k = some v := by
  unfold dictInsert; split
  · exact dictLookup_map_overwrite (by assumption)
  · rename_i h
    exact dictLookup_append_fresh v (Bool.eq_false_iff.mpr h)

lemma dictLookup_map_ne {m : List (Bytes × Nat)} {k k' : Bytes} {v : Nat} (hk : k' ≠ k) :
    dictLookup (m.map (fun e => if e.1 == k then (k, v) else e)) k' = dictLookup m k' := by
  induction m with
  | nil => rfl
  | cons e es ih =>
    unfold dictLookup at ih ⊢
    simp only [List.map_cons]
    by_cases he : (e.1 == k) = true
    · have he' : e.1 = k := by simpa using he
      rw [if_pos he, @List.find?_cons_of_neg _ (fun e => e.1 == k') (k, v) _ (by simp [Ne.symm hk]),
        @List.find?_cons_of_neg _ (fun e => e.1 == k') e _ (by simp [he', Ne.symm hk])]
      exact ih
    · rw [if_neg he]
      by_cases he2 : (e.1 == k') = true
      · rw [@List.find?_cons_of_pos _ (fun e => e.1 == k') e _ he2,
          @List.find?_cons_of_pos _ (fun e => e.1 == k') e _ he2]
      · rw [@List.find?_cons_of_neg _ (fun e => e.1 == k') e _ he2,
          @List.find?_cons_of_neg _ (fun e => e.1 == k') e _ he2]
        exact ih

lemma dictLookup_append_single_ne {m : List (Bytes × Nat)} {k k' : Bytes} (v : Nat)
    (hk : k' ≠ k) :
    dictLookup (m ++ [(k, v)]) k' = dictLookup m k' := by
  unfold dictLookup
  rw [List.find?_append,
    show List.find? (fun e => e.1 == k') [(k, v)] = none from by
      rw [@List.find?_cons_of_neg _ (fun e => e.1 == k') (k, v) _ (by simp [Ne.symm hk])]; rfl]
  rw [Option.or_none]

lemma dictLookup_dictInsert_ne {m : List (Bytes × Nat)} {k k' : Bytes} {v : Nat}
    (hk : k' ≠ k) :
    dictLookup (dictInsert m k v) k' = dictLookup m k' := by
  unfold dictInsert; split
  · exact dictLookup_map_ne hk
  · exact dictLookup_append_single_ne v hk

lemma dictLookup_dictInsert_isSome {m : List (Bytes × Nat)} {k' : Bytes} (k : Bytes)
    (v : Nat) (h : (dictLookup m k').isSome) :
    (dictLookup (dictInsert m k v) k').isSome := by
  by_cases hk : k' = k
  · subst hk; rw [dictLookup_dictInsert_self]; rfl
  · rw [dictLookup_dictInsert_ne hk]; exact h

/-- A value found in the built dictionary comes from one of the records. -/
lemma dictLookup_foldl_mem (recs : List (Bytes × Nat)) :
    ∀ (acc : List (Bytes × Nat)) (k : Bytes) (v : Nat),
      dictLookup (recs.foldl (fun m r => dictInsert m r.1 r.2) acc) k = some v →
      (k, v) ∈ recs ∨ dictLookup acc k = some v := by
  induction recs with
  | nil => intro acc k v h; exact Or.inr h
  | cons r rs ih =>
    intro acc k v h
    rcases ih _ _ _ h with h1 | h1
    · exact Or.inl (List.mem_cons_of_mem _ h1)
    · by_cases hk : k = r.1
      · subst hk
        rw [dictLookup_dictInsert_self] at h1
        injection h1 with h1
        subst h1
        exact Or.inl (by simp)
      · rw [dictLookup_dictInsert_ne hk] at h1
        exact Or.inr h1

/-- Every recorded key ends up in the built dictionary. -/
lemma dictLookup_foldl_isSome (recs : List (Bytes × Nat)) :
    ∀ (acc : List (Bytes × Nat)) (k : Bytes),
      ((∃ n, (k, n) ∈ recs) ∨ (dictLookup acc k).isSome) →
      (dictLookup (recs.foldl (fun m r => dictInsert m r.1 r.2) acc) k).isSome := by
  induction recs with
  | nil =>
    intro acc k h
    rcases h with ⟨n, hn⟩ | h
    · cases hn
    · exact h
  | cons r rs ih =>
    intro acc k h
    apply ih
    rcases h with ⟨n, hn⟩ | h
    · rcases List.mem_cons.mp hn with hr | hr
      · right
        rw [show k = r.1 from congrArg Prod.fst hr, dictLookup_dictInsert_self]
        rfl
      · exact Or.inl ⟨n, hr⟩
    · exact Or.inr (dictLookup_dictInsert_isSome _ _ h)

lemma foldl_min_spec (f : Bytes → Nat) (xs : List Bytes) :
    ∀ (x : Bytes),
      (xs.foldl (fun best c => if f c < f best then c else best) x) ∈ (x :: xs) ∧
      f (xs.foldl (fun best c => if f c < f best then c else best) x) ≤ f x ∧
      ∀ y ∈ xs, f (xs.foldl (fun best c => if f c < f best then c else best) x) ≤ f y := by
  induction xs with
  | nil =>
    intro x
    refine ⟨by simp, le_refl _, by intro y hy; cases hy⟩
  | cons z zs ih =>
    intro x
    simp only [List.foldl_cons]
    obtain ⟨hmem, hle, hall⟩ := ih (if f z < f x then z else x)
    have hle_x : f (zs.foldl (fun best c => if f c < f best then c else best)
        (if f z < f x then z else x)) ≤ f x := by
      rcases le_total (f z) (f x) with hzx | hzx
      · by_cases hlt : f z < f x
        · rw [if_pos hlt] at hle ⊢; exact hle.trans hzx
        · rw [if_neg hlt] at hle ⊢; exact hle
      · rw [if_neg (not_lt.mpr hzx)] at hle ⊢; exact hle
    have hle_z : f (zs.foldl (fun best c => if f c < f best then c else best)
        (if f z < f x then z else x)) ≤ f z := by
      by_cases hlt : f z < f x
      · rw [if_pos hlt] at hle ⊢; exact hle
      · rw [if_neg hlt] at hle ⊢; exact hle.trans (not_lt.mp hlt)
    refine ⟨?_, hle_x, ?_⟩
    · rcases List.mem_cons.mp hmem with h | h
      · rw [h]
        by_cases hlt : f z < f x
        · rw [if_pos hlt]
          exact List.mem_cons_of_mem _ (List.mem_cons_self _ _)
        · rw [if_neg hlt]
          exact List.mem_cons_self _ _
      · exact List.mem_cons_of_mem _ (List.mem_cons_of_mem _ h)
    · intro y hy
      rcases List.mem_cons.mp hy with rfl | hy
      · exact hle_z
      · exact hall y hy

lemma argminBy_spec (f : Bytes → Nat) {l : List Bytes} {x : Bytes}
    (h : argminBy f l = some x) : x ∈ l ∧ ∀ y ∈ l, f x ≤ f y := by
  cases l with
  | nil => cases h
  | cons a as =>
    simp only [argminBy, Option.some.injEq] at h
    subst h
    obtain ⟨hmem, hle, hall⟩ := foldl_min_spec f as a
    refine ⟨hmem, ?_⟩
    intro y hy
    rcases List.mem_cons.mp hy with rfl | hy
    · exact hle
    · exact hall y hy

/-- State for the C2 counterexample: merge commit `m` with parents `a` and
`b`, and `b`'s parent `a` — so `a` is reachable from `m` by chains of
length 1 and length 2. -/
def stC2 : VCState :=
  { commitNodes := [⟨asciiOf "m", none, none⟩, ⟨asciiOf "a", none, none⟩,
      ⟨asciiOf "b", none, none⟩],
    userNodes := [], branchNodes := [], headNodes := [], pointsTo := [],
    parentEdges := [(asciiOf "m", asciiOf "a"), (asciiOf "m", asciiOf "b"),
      (asciiOf "b", asciiOf "a")],
    madeByEdges := [], baseEdges := [], blobs := [], localPtr := none,
    currentBranch := asciiOf "master", workDir := [] }

/-- C2 fails on the code: the loop `ancestors[id] = distance` overwrites
earlier records instead of taking the minimum, so ancestor `a`, reachable
by a chain of length 1, is recorded with distance 2. -/
theorem claim_C2_counterexample :
    dictLookup (ancestorsDict stC2 (asciiOf "m")) (asciiOf "a") = some 2 ∧
    (asciiOf "a", 1) ∈ ancestorRecords stC2 (asciiOf "m") ∧ (2 : Nat) ≠ 1 := by decide

/-- C2 amended: `ancestorsWithDistance` returns a mapping whose keys are
exactly the ancestors reachable by a parent chain; the distance recorded
for an ancestor is the length of one of its chains (the last one
enumerated), equal to the minimal length only when every chain to that
ancestor has the same length; the merge's LCA is the common ancestor
minimizing the sum of the two recorded distances (ties broken by
enumeration order). -/
theorem claim_C2_ancestors_lca :
    (∀ (s : VCState) (cid k : Bytes) (n : Nat),
      dictLookup (ancestorsDict s cid) k = some n → (k, n) ∈ ancestorRecords s cid) ∧
    (∀ (s : VCState) (cid k : Bytes),
      (∃ n, (k, n) ∈ ancestorRecords s cid) ↔ (dictLookup (ancestorsDict s cid) k).isSome) ∧
    (∀ (s : VCState) (cid k : Bytes) (d : Nat),
      (k, d) ∈ ancestorRecords s cid →
      (∀ n, (k, n) ∈ ancestorRecords s cid → n = d) →
      dictLookup (ancestorsDict s cid) k = some d) ∧
    (∀ (d1 d2 : List (Bytes × Nat)) (lca : Bytes), lcaOf d1 d2 = some lca →
      lca ∈ commonAncestors d1 d2 ∧
      ∀ c ∈ commonAncestors d1 d2,
        (dictLookup d1 lca).getD 0 + (dictLookup d2 lca).getD 0 ≤
          (dictLookup d1 c).getD 0 + (dictLookup d2 c).getD 0) := by
  have part1 : ∀ (s : VCState) (cid k : Bytes) (n : Nat),
      dictLookup (ancestorsDict s cid) k = some n → (k, n) ∈ ancestorRecords s cid := by
    intro s cid k n h
    rcases dictLookup_foldl_mem (ancestorRecords s cid) [] k n h with h1 | h1
    · exact h1
    · cases h1
  refine ⟨part1, ?_, ?_, ?_⟩
  · intro s cid k
    constructor
    · intro h
      exact dictLookup_foldl_isSome (ancestorRecords s cid) [] k (Or.inl h)
    · intro h
      obtain ⟨v, hv⟩ := Option.isSome_iff_exists.mp h
      exact ⟨v, part1 s cid k v hv⟩
  · intro s cid k d hmem huniq
    have hs : (dictLookup (ancestorsDict s cid) k).isSome :=
      dictLookup_foldl_isSome (ancestorRecords s cid) [] k (Or.inl ⟨d, hmem⟩)
    obtain ⟨v, hv⟩ := Option.isSome_iff_exists.mp hs
    rw [hv, huniq v (part1 s cid k v hv)]
  · intro d1 d2 lca h
    exact argminBy_spec _ h

/-- Witness for the C2 amended theorem: the distance recorded for `a` in
the counterexample graph is indeed the length of an enumerated chain. -/
theorem claim_C2_witness :
    (asciiOf "a", 2) ∈ ancestorRecords stC2 (asciiOf "m") :=
  claim_C2_ancestors_lca.1 stC2 (asciiOf "m") (asciiOf "a") 2 (by decide)

/-! ## C3: conflicting versions leave the state untouched -/

/-- C3: when both the source head digest and the target head digest differ
from the LCA digest, `merge_branches` raises the conflicting-versions error
and returns with the state exactly as it was — no checkout, no commit
creation, no HEAD or pointer mutation. -/
theorem claim_C3_conflict_unchanged (s : VCState) (src tgt uid msg ts sh th lca : Bytes)
    (hsrc : headLookup s src = some sh) (htgt : headLookup s tgt = some th)
    (hlca : lcaOf (ancestorsDict s sh) (ancestorsDict s th) = some lca)
    (hdt : dirDigest s lca ≠ dirDigest s th)
    (hds : dirDigest s lca ≠ dirDigest s sh) :
    mergeBranches s src tgt uid msg ts = (some .conflictingVersions, s) := by
  simp only [mergeBranches, hsrc, htgt, hlca]
  rw [if_neg (fun h => hdt h.1), if_neg (fun h => hds h.2),
    if_neg (fun h => hds (h.1.trans h.2))]

/-- State for the C3 witness: three commits with pairwise different
snapshots, the source and target heads both children of `c1`. -/
def stC3 : VCState :=
  { commitNodes := [⟨asciiOf "c1", none, none⟩, ⟨asciiOf "c2", none, none⟩,
      ⟨asciiOf "c3", none, none⟩],
    userNodes := [asciiOf "u"],
    branchNodes := [asciiOf "tgt", asciiOf "src"],
    headNodes := [asciiOf "tgt", asciiOf "src"],
    pointsTo := [(asciiOf "tgt", asciiOf "c2"), (asciiOf "src", asciiOf "c3")],
    parentEdges := [(asciiOf "c2", asciiOf "c1"), (asciiOf "c3", asciiOf "c1")],
    madeByEdges := [], baseEdges := [],
    blobs := [(asciiOf "c1/f", asciiOf "x"), (asciiOf "c2/f", asciiOf "y"),
      (asciiOf "c3/f", asciiOf "z")],
    localPtr := some (asciiOf "c3"), currentBranch := asciiOf "master", workDir := [] }

/-- Witness for C3 at the concrete conflicting state. -/
theorem claim_C3_witness :
    mergeBranches stC3 (asciiOf "src") (asciiOf "tgt") (asciiOf "u") (asciiOf "m")
      (asciiOf "ts") = (some .conflictingVersions, stC3) :=
  claim_C3_conflict_unchanged stC3 _ _ _ _ _ (asciiOf "c3") (asciiOf "c2") (asciiOf "c1")
    (by decide) (by decide) (by decide) (by decide) (by decide)

/-! ## Supporting lemmas for the merge classification (C1) -/

@[simp] lemma revertToCommit_commitNodes (s : VCState) (c : Bytes) :
    (revertToCommit s c).commitNodes = s.commitNodes := rfl

@[simp] lemma revertToCommit_userNodes (s : VCState) (c : Bytes) :
    (revertToCommit s c).userNodes = s.userNodes := rfl

@[simp] lemma revertToCommit_branchNodes (s : VCState) (c : Bytes) :
    (revertToCommit s c).branchNodes = s.branchNodes := rfl

@[simp] lemma revertToCommit_headNodes (s : VCState) (c : Bytes) :
    (revertToCommit s c).headNodes = s.headNodes := rfl

@[simp] lemma revertToCommit_pointsTo (s : VCState) (c : Bytes) :
    (revertToCommit s c).pointsTo = s.pointsTo := rfl

@[simp] lemma revertToCommit_parentEdges (s : VCState) (c : Bytes) :
    (revertToCommit s c).parentEdges = s.parentEdges := rfl

@[simp] lemma revertToCommit_madeByEdges (s : VCState) (c : Bytes) :
    (revertToCommit s c).madeByEdges = s.madeByEdges := rfl

@[simp] lemma revertToCommit_blobs (s : VCState) (c : Bytes) :
    (revertToCommit s c).blobs = s.blobs := rfl

@[simp] lemma revertToCommit_localPtr (s : VCState) (c : Bytes) :
    (revertToCommit s c).localPtr = s.localPtr := rfl

@[simp] lemma revertToCommit_workDir (s : VCState) (c : Bytes) :
    (revertToCommit s c).workDir = revertDirPure s.blobs s.workDir c := rfl

@[simp] lemma mergeEdgeStep_userNodes (s : VCState) (mid c1 c2 uid : Bytes) :
    (mergeEdgeStep s mid c1 c2 uid).userNodes = s.userNodes := by
  unfold mergeEdgeStep; split <;> rfl

@[simp] lemma mergeEdgeStep_branchNodes (s : VCState) (mid c1 c2 uid : Bytes) :
    (mergeEdgeStep s mid c1 c2 uid).branchNodes = s.branchNodes := by
  unfold mergeEdgeStep; split <;> rfl

@[simp] lemma mergeEdgeStep_headNodes (s : VCState) (mid c1 c2 uid : Bytes) :
    (mergeEdgeStep s mid c1 c2 uid).headNodes = s.headNodes := by
  unfold mergeEdgeStep; split <;> rfl

@[simp] lemma mergeEdgeStep_pointsTo (s : VCState) (mid c1 c2 uid : Bytes) :
    (mergeEdgeStep s mid c1 c2 uid).pointsTo = s.pointsTo := by
  unfold mergeEdgeStep; split <;> rfl

@[simp] lemma mergeEdgeStep_blobs (s : VCState) (mid c1 c2 uid : Bytes) :
    (mergeEdgeStep s mid c1 c2 uid).blobs = s.blobs := by
  unfold mergeEdgeStep; split <;> rfl

@[simp] lemma mergeEdgeStep_localPtr (s : VCState) (mid c1 c2 uid : Bytes) :
    (mergeEdgeStep s mid c1 c2 uid).localPtr = s.localPtr := by
  unfold mergeEdgeStep; split <;> rfl

@[simp] lemma mergeEdgeStep_workDir (s : VCState) (mid c1 c2 uid : Bytes) :
    (mergeEdgeStep s mid c1 c2 uid).workDir = s.workDir := by
  unfold mergeEdgeStep; split <;> rfl

@[simp] lemma mergeEdgeStep_commitNodes (s : VCState) (mid c1 c2 uid : Bytes) :
    (mergeEdgeStep s mid c1 c2 uid).commitNodes = s.commitNodes := by
  unfold mergeEdgeStep; split <;> rfl

@[simp] lemma mergeGraphInsert_branchNodes (s : VCState) (mid msg ts c1 c2 uid : Bytes) :
    (mergeGraphInsert s mid msg ts c1 c2 uid).branchNodes = s.branchNodes := by
  unfold mergeGraphInsert; simp

@[simp] lemma mergeGraphInsert_headNodes (s : VCState) (mid msg ts c1 c2 uid : Bytes) :
    (mergeGraphInsert s mid msg ts c1 c2 uid).headNodes = s.headNodes := by
  unfold mergeGraphInsert; simp

@[simp] lemma mergeGraphInsert_pointsTo (s : VCState) (mid msg ts c1 c2 uid : Bytes) :
    (mergeGraphInsert s mid msg ts c1 c2 uid).pointsTo = s.pointsTo := by
  unfold mergeGraphInsert; simp

@[simp] lemma mergeGraphInsert_blobs (s : VCState) (mid msg ts c1 c2 uid : Bytes) :
    (mergeGraphInsert s mid msg ts c1 c2 uid).blobs = s.blobs := by
  unfold mergeGraphInsert; simp

@[simp] lemma mergeGraphInsert_workDir (s : VCState) (mid msg ts c1 c2 uid : Bytes) :
    (mergeGraphInsert s mid msg ts c1 c2 uid).workDir = s.workDir := by
  unfold mergeGraphInsert; simp

@[simp] lemma mergeGraphInsert_userNodes (s : VCState) (mid msg ts c1 c2 uid : Bytes) :
    (mergeGraphInsert s mid msg ts c1 c2 uid).userNodes = s.userNodes := by
  unfold mergeGraphInsert; simp

lemma mergeGraphInsert_edges {s : VCState} {c1 c2 uid : Bytes} (mid msg ts : Bytes)
    (h1 : commitExists s c1 = true) (h2 : commitExists s c2 = true)
    (hu : s.userNodes.contains uid = true) :
    (mergeGraphInsert s mid msg ts c1 c2 uid).parentEdges =
      s.parentEdges ++ [(mid, c1), (mid, c2)] ∧
    (mergeGraphInsert s mid msg ts c1 c2 uid).madeByEdges =
      s.madeByEdges ++ [(mid, uid)] := by
  unfold mergeGraphInsert
  rw [mergeEdgeStep_pos mid
    (by rw [mergeNodeStep_userNodes, commitExists_mergeNodeStep_mono _ h1,
          commitExists_mergeNodeStep_mono _ h2, hu]; rfl)]
  exact ⟨by simp, by simp⟩

lemma headLookup_spec {s : VCState} {b c : Bytes} (h : headLookup s b = some c) :
    s.headNodes.contains b = true ∧ (b, c) ∈ s.pointsTo ∧ commitExists s c = true := by
  unfold headLookup headRows at h
  by_cases hb : s.headNodes.contains b = true
  · rw [hb, if_pos rfl] at h
    have hc : c ∈ (s.pointsTo.filter
        (fun e => e.1 == b && commitExists s e.2)).map (fun e => e.2) :=
      List.mem_of_mem_head? (Option.mem_def.mpr h)
    simp only [List.mem_map, List.mem_filter, Bool.and_eq_true, beq_iff_eq] at hc
    obtain ⟨e, ⟨he, hfst, hce⟩, rfl⟩ := hc
    refine ⟨hb, ?_, hce⟩
    have hpair : (b, e.2) = e := by rw [← hfst]
    rw [hpair]
    exact he
  · exfalso
    rw [Bool.eq_false_iff.mpr hb] at h
    simp at h

lemma contains_filter_ne {l : List Bytes} {a n : Bytes} (h : l.contains a = true)
    (hne : a ≠ n) : (l.filter (fun b => !(b == n))).contains a = true := by
  rw [List.contains_eq_any_beq] at h ⊢
  simp only [List.any_eq_true, beq_iff_eq] at h ⊢
  obtain ⟨x, hx, rfl⟩ := h
  exact ⟨a, List.mem_filter.mpr ⟨hx, by simp [hne]⟩, rfl⟩

lemma contains_filter_self_false (l : List Bytes) (n : Bytes) :
    (l.filter (fun b => !(b == n))).contains n = false := by
  rw [List.contains_eq_any_beq]
  apply Bool.eq_false_iff.mpr
  intro h
  simp only [List.any_eq_true, beq_iff_eq] at h
  obtain ⟨x, hx, rfl⟩ := h
  have := (List.mem_filter.mp hx).2
  simp at this

lemma filter_key_ne_nil_of_mem {l : List (Bytes × Bytes)} {b c : Bytes}
    (h : (b, c) ∈ l) : l.filter (fun e => e.1 == b) ≠ [] := by
  intro hnil
  have hmem : (b, c) ∈ l.filter (fun e => e.1 == b) :=
    List.mem_filter.mpr ⟨h, by simp⟩
  rw [hnil] at hmem
  cases hmem

lemma mem_filter_fst_ne {l : List (Bytes × Bytes)} {b c n : Bytes} (h : (b, c) ∈ l)
    (hne : b ≠ n) : (b, c) ∈ l.filter (fun e => !(e.1 == n)) :=
  List.mem_filter.mpr ⟨h, by simp [hne]⟩

lemma terminateBranch_pos {s : VCState} {name : Bytes}
    (hb : s.branchNodes.contains name = true) (hh : s.headNodes.contains name = true) :
    (terminateBranch s name).1 =
      { s with branchNodes := s.branchNodes.filter (fun b => !(b == name)),
               headNodes := s.headNodes.filter (fun b => !(b == name)),
               baseEdges := s.baseEdges.filter (fun e => !(e.1 == name)),
               pointsTo := s.pointsTo.filter (fun e => !(e.1 == name)) } := by
  unfold terminateBranch
  rw [hb, hh]
  rfl

lemma headLookup_updateHead_self {s : VCState} {b c : Bytes}
    (hh : s.headNodes.contains b = true)
    (hne : s.pointsTo.filter (fun e => e.1 == b) ≠ [])
    (hc : commitExists s c = true) :
    headLookup (updateHead s b c) b = some c := by
  have hc' : s.commitNodes.any (fun n => n.cid == c) = true := hc
  have hps : (updateHead s b c).pointsTo =
      s.pointsTo.filter (fun e => !(e.1 == b)) ++
        List.replicate (s.pointsTo.filter (fun e => e.1 == b)).length (b, c) := by
    unfold updateHead
    rw [hh, if_pos rfl, if_neg (fun h0 => hne (List.length_eq_zero.mp h0)), if_pos hc]
  have hhn : (updateHead s b c).headNodes = s.headNodes := updateHead_headNodes s b c
  have hcn : (updateHead s b c).commitNodes = s.commitNodes := updateHead_commitNodes s b c
  unfold headLookup headRows
  rw [hhn, hh, if_pos rfl, hps]
  simp only [commitExists, hcn]
  rw [List.filter_append, List.filter_filter]
  rw [show List.filter
      (fun e => (e.1 == b && s.commitNodes.any fun n => n.cid == e.2) && !(e.1 == b))
      s.pointsTo = [] from by
    rw [List.filter_eq_nil_iff]
    intro a _
    cases hx : (a.1 == b) <;> simp [hx]]
  rw [show List.filter (fun e => e.1 == b && s.commitNodes.any fun n => n.cid == e.2)
      (List.replicate (s.pointsTo.filter (fun e => e.1 == b)).length (b, c)) =
      List.replicate (s.pointsTo.filter (fun e => e.1 == b)).length (b, c) from
    List.filter_eq_self.mpr (fun x hx => by rw [List.eq_of_mem_replicate hx]; simp [hc'])]
  cases hk : (s.pointsTo.filter (fun e => e.1 == b)).length with
  | zero => exact absurd (List.length_eq_zero.mp hk) hne
  | succ n =>
    rw [List.nil_append, List.map_replicate, List.replicate_succ]
    rfl

lemma mergeBranches_caseA_eq {s : VCState} {src tgt uid msg ts sh th lca l : Bytes}
    (hsrc : headLookup s src = some sh) (htgt : headLookup s tgt = some th)
    (hlca : lcaOf (ancestorsDict s sh) (ancestorsDict s th) = some lca)
    (hptr : s.localPtr = some l) (hl : l ≠ []) (hd : lastIsDigit l = true)
    (hcase : dirDigest s lca = dirDigest s th ∧ dirDigest s lca ≠ dirDigest s sh) :
    mergeBranches s src tgt uid msg ts =
      (none, updateHead
        (terminateBranch
          { mergeGraphInsert (revertToCommit s sh) (mergeIdOf l) msg ts sh th uid with
              localPtr := some (mergeIdOf l) } src).1
        tgt (mergeIdOf l)) := by
  have h1ptr : (revertToCommit s sh).localPtr = some l := hptr
  have hOK := mergeCommitOp_ok sh th uid msg ts h1ptr hl hd
  simp only [mergeBranches, hsrc, htgt, hlca]
  rw [if_pos hcase, hOK]

lemma mergeBranches_caseB_eq {s : VCState} {src tgt uid msg ts sh th lca l : Bytes}
    (hsrc : headLookup s src = some sh) (htgt : headLookup s tgt = some th)
    (hlca : lcaOf (ancestorsDict s sh) (ancestorsDict s th) = some lca)
    (hptr : s.localPtr = some l) (hl : l ≠ []) (hd : lastIsDigit l = true)
    (hcase : dirDigest s lca ≠ dirDigest s th ∧ dirDigest s lca = dirDigest s sh) :
    mergeBranches s src tgt uid msg ts =
      (none, updateHead
        { mergeGraphInsert (revertToCommit s th) (mergeIdOf l) msg ts sh th uid with
            localPtr := some (mergeIdOf l) }
        tgt (mergeIdOf l)) := by
  have h1ptr : (revertToCommit s th).localPtr = some l := hptr
  have hOK := mergeCommitOp_ok sh th uid msg ts h1ptr hl hd
  simp only [mergeBranches, hsrc, htgt, hlca]
  rw [if_neg (fun h => hcase.1 h.1), if_pos hcase, hOK]

lemma mergeBranches_caseC_eq {s : VCState} {src tgt uid msg ts sh th lca l : Bytes}
    (hsrc : headLookup s src = some sh) (htgt : headLookup s tgt = some th)
    (hlca : lcaOf (ancestorsDict s sh) (ancestorsDict s th) = some lca)
    (hptr : s.localPtr = some l) (hl : l ≠ []) (hd : lastIsDigit l = true)
    (hcase : dirDigest s lca = dirDigest s th ∧ dirDigest s th = dirDigest s sh) :
    mergeBranches s src tgt uid msg ts =
      (none, updateHead
        { mergeGraphInsert s (mergeIdOf l) msg ts sh th uid with
            localPtr := some (mergeIdOf l) }
        tgt (mergeIdOf l)) := by
  have hOK := mergeCommitOp_ok sh th uid msg ts hptr hl hd
  simp only [mergeBranches, hsrc, htgt, hlca]
  rw [if_neg (fun h => h.2 (hcase.1.trans hcase.2)), if_neg (fun h => h.1 hcase.1),
    if_pos hcase, hOK]

/-- C1: classification of a merge by the three directory digests, assuming
both heads resolve, a common ancestor exists, the local pointer holds a
digit-terminated id (§9 notes this fragility) and the merging user exists.
Case source-only-changed: the source head is checked out, a merge commit
with both heads as parents is created, the source branch is terminated and
the target HEAD moves to the merge commit.  Case target-only-changed: the
target head is checked out, the merge commit is created, the source branch
is retained and the target HEAD moves.  Case all-equal: no checkout, but
the merge commit is still created and the target HEAD moves. -/
theorem claim_C1_merge_classification (s : VCState)
    (src tgt uid msg ts sh th lca l : Bytes)
    (hsrc : headLookup s src = some sh) (htgt : headLookup s tgt = some th)
    (hlca : lcaOf (ancestorsDict s sh) (ancestorsDict s th) = some lca)
    (hst : src ≠ tgt)
    (hptr : s.localPtr = some l) (hl : l ≠ []) (hd : lastIsDigit l = true)
    (huser : s.userNodes.contains uid = true) :
    ((dirDigest s lca = dirDigest s th ∧ dirDigest s lca ≠ dirDigest s sh) →
      s.branchNodes.contains src = true →
      (mergeBranches s src tgt uid msg ts).1 = none ∧
      (mergeBranches s src tgt uid msg ts).2.workDir = revertDirPure s.blobs s.workDir sh ∧
      (mergeIdOf l, sh) ∈ (mergeBranches s src tgt uid msg ts).2.parentEdges ∧
      (mergeIdOf l, th) ∈ (mergeBranches s src tgt uid msg ts).2.parentEdges ∧
      (mergeIdOf l, uid) ∈ (mergeBranches s src tgt uid msg ts).2.madeByEdges ∧
      (mergeBranches s src tgt uid msg ts).2.branchNodes.contains src = false ∧
      (mergeBranches s src tgt uid msg ts).2.headNodes.contains src = false ∧
      headLookup (mergeBranches s src tgt uid msg ts).2 tgt = some (mergeIdOf l)) ∧
    ((dirDigest s lca ≠ dirDigest s th ∧ dirDigest s lca = dirDigest s sh) →
      (mergeBranches s src tgt uid msg ts).1 = none ∧
      (mergeBranches s src tgt uid msg ts).2.workDir = revertDirPure s.blobs s.workDir th ∧
      (mergeIdOf l, sh) ∈ (mergeBranches s src tgt uid msg ts).2.parentEdges ∧
      (mergeIdOf l, th) ∈ (mergeBranches s src tgt uid msg ts).2.parentEdges ∧
      (mergeIdOf l, uid) ∈ (mergeBranches s src tgt uid msg ts).2.madeByEdges ∧
      (mergeBranches s src tgt uid msg ts).2.branchNodes = s.branchNodes ∧
      headLookup (mergeBranches s src tgt uid msg ts).2 tgt = some (mergeIdOf l)) ∧
    ((dirDigest s lca = dirDigest s th ∧ dirDigest s th = dirDigest s sh) →
      (mergeBranches s src tgt uid msg ts).1 = none ∧
      (mergeBranches s src tgt uid msg ts).2.workDir = s.workDir ∧
      (mergeIdOf l, sh) ∈ (mergeBranches s src tgt uid msg ts).2.parentEdges ∧
      (mergeIdOf l, th) ∈ (mergeBranches s src tgt uid msg ts).2.parentEdges ∧
      (mergeIdOf l, uid) ∈ (mergeBranches s src tgt uid msg ts).2.madeByEdges ∧
      headLookup (mergeBranches s src tgt uid msg ts).2 tgt = some (mergeIdOf l)) := by
  obtain ⟨hsrcHead, hsrcEdge, hsrcEx⟩ := headLookup_spec hsrc
  obtain ⟨htgtHead, htgtEdge, htgtEx⟩ := headLookup_spec htgt
  refine ⟨?_, ?_, ?_⟩
  · intro hcase hbr
    rw [mergeBranches_caseA_eq hsrc htgt hlca hptr hl hd hcase]
    set S2 : VCState :=
      { mergeGraphInsert (revertToCommit s sh) (mergeIdOf l) msg ts sh th uid with
          localPtr := some (mergeIdOf l) } with hS2
    have hedges := mergeGraphInsert_edges (mergeIdOf l) msg ts
      (show commitExists (revertToCommit s sh) sh = true from hsrcEx)
      (show commitExists (revertToCommit s sh) th = true from htgtEx)
      (show (revertToCommit s sh).userNodes.contains uid = true from huser)
    have hS2br : S2.branchNodes = s.branchNodes := by rw [hS2]; simp
    have hS2hd : S2.headNodes = s.headNodes := by rw [hS2]; simp
    have hS2pt : S2.pointsTo = s.pointsTo := by rw [hS2]; simp
    have hS2wd : S2.workDir = revertDirPure s.blobs s.workDir sh := by rw [hS2]; simp
    have hS2pe : S2.parentEdges = s.parentEdges ++ [(mergeIdOf l, sh), (mergeIdOf l, th)] := by
      rw [hS2]; simpa using hedges.1
    have hS2me : S2.madeByEdges = s.madeByEdges ++ [(mergeIdOf l, uid)] := by
      rw [hS2]; simpa using hedges.2
    have hS2mid : commitExists S2 (mergeIdOf l) = true := by
      rw [hS2]
      exact commitExists_mergeGraphInsert_self (revertToCommit s sh) (mergeIdOf l) msg ts sh th uid
    have hT := terminateBranch_pos
      (show S2.branchNodes.contains src = true from by rw [hS2br]; exact hbr)
      (show S2.headNodes.contains src = true from by rw [hS2hd]; exact hsrcHead)
    rw [hT]
    refine ⟨rfl, ?_, ?_, ?_, ?_, ?_, ?_, ?_⟩
    · rw [updateHead_workDir]
      exact hS2wd
    · rw [updateHead_parentEdges]
      show (mergeIdOf l, sh) ∈ S2.parentEdges
      rw [hS2pe]
      exact List.mem_append.mpr (Or.inr (by simp))
    · rw [updateHead_parentEdges]
      show (mergeIdOf l, th) ∈ S2.parentEdges
      rw [hS2pe]
      exact List.mem_append.mpr (Or.inr (by simp))
    · rw [updateHead_madeByEdges]
      show (mergeIdOf l, uid) ∈ S2.madeByEdges
      rw [hS2me]
      exact List.mem_append.mpr (Or.inr (by simp))
    · rw [updateHead_branchNodes]
      exact contains_filter_self_false _ _
    · rw [updateHead_headNodes]
      exact contains_filter_self_false _ _
    · apply headLookup_updateHead_self
      · show (S2.headNodes.filter (fun b => !(b == src))).contains tgt = true
        rw [hS2hd]
        exact contains_filter_ne htgtHead (Ne.symm hst)
      · show ((S2.pointsTo.filter (fun e => !(e.1 == src))).filter
          (fun e => e.1 == tgt)) ≠ []
        rw [hS2pt]
        exact filter_key_ne_nil_of_mem (mem_filter_fst_ne htgtEdge (Ne.symm hst))
      · exact hS2mid
  · intro hcase
    rw [mergeBranches_caseB_eq hsrc htgt hlca hptr hl hd hcase]
    set S2 : VCState :=
      { mergeGraphInsert (revertToCommit s th) (mergeIdOf l) msg ts sh th uid with
          localPtr := some (mergeIdOf l) } with hS2
    have hedges := mergeGraphInsert_edges (mergeIdOf l) msg ts
      (show commitExists (revertToCommit s th) sh = true from hsrcEx)
      (show commitExists (revertToCommit s th) th = true from htgtEx)
      (show (revertToCommit s th).userNodes.contains uid = true from huser)
    have hS2br : S2.branchNodes = s.branchNodes := by rw [hS2]; simp
    have hS2hd : S2.headNodes = s.headNodes := by rw [hS2]; simp
    have hS2pt : S2.pointsTo = s.pointsTo := by rw [hS2]; simp
    have hS2wd : S2.workDir = revertDirPure s.blobs s.workDir th := by rw [hS2]; simp
    have hS2pe : S2.parentEdges = s.parentEdges ++ [(mergeIdOf l, sh), (mergeIdOf l, th)] := by
      rw [hS2]; simpa using hedges.1
    have hS2me : S2.madeByEdges = s.madeByEdges ++ [(mergeIdOf l, uid)] := by
      rw [hS2]; simpa using hedges.2
    have hS2mid : commitExists S2 (mergeIdOf l) = true := by
      rw [hS2]
      exact commitExists_mergeGraphInsert_self (revertToCommit s th) (mergeIdOf l) msg ts sh th uid
    refine ⟨rfl, ?_, ?_, ?_, ?_, ?_, ?_⟩
    · rw [updateHead_workDir]
      exact hS2wd
    · rw [updateHead_parentEdges, hS2pe]
      exact List.mem_append.mpr (Or.inr (by simp))
    · rw [updateHead_parentEdges, hS2pe]
      exact List.mem_append.mpr (Or.inr (by simp))
    · rw [updateHead_madeByEdges, hS2me]
      exact List.mem_append.mpr (Or.inr (by simp))
    · rw [updateHead_branchNodes]
      exact hS2br
    · apply headLookup_updateHead_self
      · rw [hS2hd]
        exact htgtHead
      · rw [hS2pt]
        exact filter_key_ne_nil_of_mem htgtEdge
      · exact hS2mid
  · intro hcase
    rw [mergeBranches_caseC_eq hsrc htgt hlca hptr hl hd hcase]
    set S2 : VCState :=
      { mergeGraphInsert s (mergeIdOf l) msg ts sh th uid with
          localPtr := some (mergeIdOf l) } with hS2
    have hedges := mergeGraphInsert_edges (mergeIdOf l) msg ts hsrcEx htgtEx huser
    have hS2hd : S2.headNodes = s.headNodes := by rw [hS2]; simp
    have hS2pt : S2.pointsTo = s.pointsTo := by rw [hS2]; simp
    have hS2wd : S2.workDir = s.workDir := by rw [hS2]; simp
    have hS2pe : S2.parentEdges = s.parentEdges ++ [(mergeIdOf l, sh), (mergeIdOf l, th)] := by
      rw [hS2]; simpa using hedges.1
    have hS2me : S2.madeByEdges = s.madeByEdges ++ [(mergeIdOf l, uid)] := by
      rw [hS2]; simpa using hedges.2
    have hS2mid : commitExists S2 (mergeIdOf l) = true := by
      rw [hS2]
      exact commitExists_mergeGraphInsert_self s (mergeIdOf l) msg ts sh th uid
    refine ⟨rfl, ?_, ?_, ?_, ?_, ?_⟩
    · rw [updateHead_workDir]
      exact hS2wd
    · rw [updateHead_parentEdges, hS2pe]
      exact List.mem_append.mpr (Or.inr (by simp))
    · rw [updateHead_parentEdges, hS2pe]
      exact List.mem_append.mpr (Or.inr (by simp))
    · rw [updateHead_madeByEdges, hS2me]
      exact List.mem_append.mpr (Or.inr (by simp))
    · apply headLookup_updateHead_self
      · rw [hS2hd]
        exact htgtHead
      · rw [hS2pt]
        exact filter_key_ne_nil_of_mem htgtEdge
      · exact hS2mid

/-- State for the C1 witness: `c2` (target head) and `c3` (source head)
are both children of `c1`; `c2`'s snapshot equals `c1`'s, `c3`'s differs —
the source-only-changed case. -/
def stC1 : VCState :=
  { commitNodes := [⟨asciiOf "c1", none, none⟩, ⟨asciiOf "c2", none, none⟩,
      ⟨asciiOf "c3", none, none⟩],
    userNodes := [asciiOf "u"],
    branchNodes := [asciiOf "tgt", asciiOf "src"],
    headNodes := [asciiOf "tgt", asciiOf "src"],
    pointsTo := [(asciiOf "tgt", asciiOf "c2"), (asciiOf "src", asciiOf "c3")],
    parentEdges := [(asciiOf "c2", asciiOf "c1"), (asciiOf "c3", asciiOf "c1")],
    madeByEdges := [], baseEdges := [],
    blobs := [(asciiOf "c1/f", asciiOf "x"), (asciiOf "c2/f", asciiOf "x"),
      (asciiOf "c3/f", asciiOf "y")],
    localPtr := some (asciiOf "c3"), currentBranch := asciiOf "master",
    workDir := [(asciiOf ".git", asciiOf "cfg"), (asciiOf "old", asciiOf "o")] }

/-- Witness for C1: the concrete source-only-changed merge checks out the
source head, links both parents, terminates the source branch and moves
the target HEAD to the new merge commit `"c4"`. -/
theorem claim_C1_witness :
    (mergeBranches stC1 (asciiOf "src") (asciiOf "tgt") (asciiOf "u") (asciiOf "m")
      (asciiOf "ts")).1 = none ∧
    (mergeBranches stC1 (asciiOf "src") (asciiOf "tgt") (asciiOf "u") (asciiOf "m")
      (asciiOf "ts")).2.workDir =
      revertDirPure stC1.blobs stC1.workDir (asciiOf "c3") ∧
    (mergeIdOf (asciiOf "c3"), asciiOf "c3") ∈
      (mergeBranches stC1 (asciiOf "src") (asciiOf "tgt") (asciiOf "u") (asciiOf "m")
        (asciiOf "ts")).2.parentEdges ∧
    (mergeIdOf (asciiOf "c3"), asciiOf "c2") ∈
      (mergeBranches stC1 (asciiOf "src") (asciiOf "tgt") (asciiOf "u") (asciiOf "m")
        (asciiOf "ts")).2.parentEdges ∧
    (mergeIdOf (asciiOf "c3"), asciiOf "u") ∈
      (mergeBranches stC1 (asciiOf "src") (asciiOf "tgt") (asciiOf "u") (asciiOf "m")
        (asciiOf "ts")).2.madeByEdges ∧
    (mergeBranches stC1 (asciiOf "src") (asciiOf "tgt") (asciiOf "u") (asciiOf "m")
      (asciiOf "ts")).2.branchNodes.contains (asciiOf "src") = false ∧
    (mergeBranches stC1 (asciiOf "src") (asciiOf "tgt") (asciiOf "u") (asciiOf "m")
      (asciiOf "ts")).2.headNodes.contains (asciiOf "src") = false ∧
    headLookup (mergeBranches stC1 (asciiOf "src") (asciiOf "tgt") (asciiOf "u")
      (asciiOf "m") (asciiOf "ts")).2 (asciiOf "tgt") = some (mergeIdOf (asciiOf "c3")) :=
  (claim_C1_merge_classification stC1 (asciiOf "src") (asciiOf "tgt") (asciiOf "u")
      (asciiOf "m") (asciiOf "ts") (asciiOf "c3") (asciiOf "c2") (asciiOf "c1")
      (asciiOf "c3") (by decide) (by decide) (by decide) (by decide) rfl (by decide)
      (by decide) (by decide)).1
    (by decide) (by decide)

/-- C7: `fileHash` first normalizes CRLF to LF and then takes the SHA-1 of
`"blob " + decimal length + NUL + content` — the git-compatible blob hash
(checked against git's well-known digests for the empty blob and for
`"test content\n"`), so that a CRLF and an LF version of the same content
hash identically. -/
theorem claim_C7_fileHash_git_blob :
    (∀ content : Bytes, fileHash content =
      sha1HexBytes (asciiOf "blob " ++ decimalBytes (normalizeCRLF content).length
        ++ [0] ++ normalizeCRLF content)) ∧
    fileHash [] = asciiOf "e69de29bb2d1d6434b8b29ae775ad8c2e48c5391" ∧
    fileHash (asciiOf "test content\n") =
      asciiOf "d670460b4b4aece5915caf5c68d12f560a9fe3e4" ∧
    fileHash (asciiOf "a" ++ [13, 10] ++ asciiOf "b") =
      fileHash (asciiOf "a" ++ [10] ++ asciiOf "b") :=
  ⟨fun _ => rfl, by decide, by decide, by decide⟩

end GraphVCS
